import Mathlib

/-!
Formal model of the contact/notes personal-assistant core
(`src/fields.py`, `src/record.py`, `src/addressbook.py`, `src/note.py`,
`src/note_handlers.py`, `src/persistence.py`).

Python strings are modelled by Lean `String` (operations such as
`str.strip`, `str.lower`, `str.isdigit`, substring `in` are embedded on
the ASCII fragment, which covers every value the validators accept).
Python exceptions are modelled with `Except`; `datetime.date` is modelled
by an explicit year/month/day structure with proleptic-Gregorian rules,
matching Python's documented `datetime` semantics.
-/

/-- Error kinds raised by the Python code, following the spec's taxonomy:
`ValueError` on a failed field validation is `invalidFormat`, a failed key
or value lookup is `notFound` (`KeyError`/`ValueError`), the negative-days
check is `invalidArgument`, `date.replace` with an impossible day is
`dayOutOfRange`, date arithmetic past year 9999 is `overflow`, and the
handlers' argument checks raise `indexError` / `valueError`. -/
inductive Err where
  | invalidFormat
  | notFound
  | invalidArgument
  | dayOutOfRange
  | overflow
  | indexError
  | valueError
deriving DecidableEq, Repr

deriving instance DecidableEq for Except

/-- Whitespace characters stripped by Python's `str.strip()` (ASCII
fragment): space, tab, newline, carriage return, vertical tab, form feed,
written by ASCII code for ease of reasoning. -/
def pyIsSpace (c : Char) : Bool :=
  c.toNat = 32 || c.toNat = 9 || c.toNat = 10 || c.toNat = 13 ||
    c.toNat = 11 || c.toNat = 12

/-- ASCII lowercasing of one character, as `str.lower()` acts on ASCII. -/
def asciiLower (c : Char) : Char :=
  if 65 ≤ c.toNat ∧ c.toNat ≤ 90 then Char.ofNat (c.toNat + 32) else c

/-- Embedding of Python `str.lower()` (ASCII fragment). -/
def pyLower (s : String) : String := ⟨s.data.map asciiLower⟩

/-- Strip `pyIsSpace` characters from the front of a character list. -/
def stripLeftL (l : List Char) : List Char := l.dropWhile pyIsSpace

/-- Embedding of Python `str.strip()` on character lists: drop whitespace
from both ends. -/
def stripL (l : List Char) : List Char :=
  (stripLeftL (stripLeftL l.reverse).reverse)

/-- Embedding of Python `str.strip()`. -/
def pyStrip (s : String) : String := ⟨stripL s.data⟩

/-- Is `n` a prefix of `h` (character lists)? -/
def startsL : List Char → List Char → Bool
  | [], _ => true
  | _ :: _, [] => false
  | a :: as, b :: bs => a = b && startsL as bs

/-- Does `n` occur as a contiguous substring of `h`?  Embeds Python's
`n in h` on strings. -/
def subL : List Char → List Char → Bool
  | n, [] => n.isEmpty
  | n, c :: rest => startsL n (c :: rest) || subL n rest

/-- Embedding of Python's substring test `needle in haystack`. -/
def pyIn (needle haystack : String) : Bool := subL needle.data haystack.data

/-- Embedding of Python `str.split()` with no argument: split on runs of
whitespace, discarding empty pieces. -/
def splitWsL : List Char → List (List Char)
  | [] => []
  | c :: rest =>
    if pyIsSpace c then splitWsL rest
    else
      match splitWsL rest with
      | [] => [[c]]
      | w :: ws =>
        match rest with
        | [] => [[c]]
        | d :: _ => if pyIsSpace d then [c] :: w :: ws else (c :: w) :: ws

/-- Embedding of Python `str.split()` (whitespace split). -/
def pySplitWs (s : String) : List String := (splitWsL s.data).map String.mk

/-- Split a character list at every occurrence of `sep`; embeds Python's
`str.split(sep)`. -/
def splitOnL (sep : Char) : List Char → List (List Char)
  | [] => [[]]
  | c :: rest =>
    if c = sep then [] :: splitOnL sep rest
    else
      match splitOnL sep rest with
      | [] => [[c]]
      | p :: ps => (c :: p) :: ps

/-- Split at the first occurrence of `sep` only, embeds `str.split(sep, 1)`
when `sep` occurs; returns `none` when it does not. -/
def splitFirstL (sep : Char) : List Char → Option (List Char × List Char)
  | [] => none
  | c :: rest =>
    if c = sep then some ([], rest)
    else match splitFirstL sep rest with
      | none => none
      | some (a, b) => some (c :: a, b)

/-- Embedding of Python `str.lstrip(ch)` for a single strip character:
drop every leading occurrence. -/
def lstripCharL (ch : Char) : List Char → List Char
  | [] => []
  | c :: rest => if c = ch then lstripCharL ch rest else c :: rest

/-- ASCII decimal digit test; embeds Python `str.isdigit()` per character
(ASCII fragment). -/
def isDigitA (c : Char) : Bool := 48 ≤ c.toNat && c.toNat ≤ 57

/-- Embedding of Python `str.isdigit()`: nonempty and all digits. -/
def pyIsDigitStr (s : String) : Bool := !s.data.isEmpty && s.data.all isDigitA

/-- The decimal digit character for `n < 10`. -/
def digitChar : Nat → Char
  | 0 => '0' | 1 => '1' | 2 => '2' | 3 => '3' | 4 => '4'
  | 5 => '5' | 6 => '6' | 7 => '7' | 8 => '8' | 9 => '9'
  | _ => '0'

/-- Digit expansion with explicit fuel (structural recursion so that the
kernel can evaluate it); `fuel > n` always suffices. -/
def natToDigitsAux : Nat → Nat → List Char
  | 0, _ => []
  | fuel + 1, n =>
    if n < 10 then [digitChar n]
    else natToDigitsAux fuel (n / 10) ++ [digitChar (n % 10)]

/-- Decimal digits of `n`, most significant first (`"0"` for zero). -/
def natToDigits (n : Nat) : List Char := natToDigitsAux (n + 1) n

/-- Numeric value of a digit list (fold of `10*acc + digit`). -/
def digitsToNat (l : List Char) : Nat :=
  l.foldl (fun a c => 10 * a + (c.toNat - 48)) 0

/-- Zero-pad the decimal form of `n` to two characters; embeds the
`%d` / `%m` directives of `strftime`. -/
def padTwo (n : Nat) : List Char :=
  if n < 10 then '0' :: natToDigits n else natToDigits n

/-- Zero-pad the decimal form of `n` to four characters; embeds the `%Y`
directive of `strftime` for the canonical 4-digit year. -/
def padFour (n : Nat) : List Char :=
  List.replicate (4 - (natToDigits n).length) '0' ++ natToDigits n

/-- Strict lexicographic order on character lists by code point; embeds
Python's string `<`. -/
def listStrLt : List Char → List Char → Bool
  | [], [] => false
  | [], _ :: _ => true
  | _ :: _, [] => false
  | a :: as, b :: bs =>
    if a.toNat < b.toNat then true
    else if a.toNat = b.toNat then listStrLt as bs
    else false

/-- Python string `<` on `String`. -/
def pyStrLt (a b : String) : Bool := listStrLt a.data b.data

/-- Python string `<=` on `String`. -/
def pyStrLe (a b : String) : Bool := a = b || listStrLt a.data b.data

/-- A Python `datetime.date` value: year, month, day. Python enforces
1 ≤ year ≤ 9999 and a valid month/day at construction; here validity is the
separate predicate `dateOk`. -/
structure PyDate where
  year : Nat
  month : Nat
  day : Nat
deriving DecidableEq, Repr

/-- Gregorian leap-year rule used by Python's `calendar`/`datetime`. -/
def isLeap (y : Nat) : Bool := y % 4 = 0 && (y % 100 ≠ 0 || y % 400 = 0)

/-- Number of days in a month (month 2 depends on the leap rule). -/
def daysInMonth (y m : Nat) : Nat :=
  if m = 2 then (if isLeap y then 29 else 28)
  else if m = 4 || m = 6 || m = 9 || m = 11 then 30
  else 31

/-- Validity of a year/month/day triple under Python's `date` constructor
(`MINYEAR = 1`, `MAXYEAR = 9999`). -/
def dateOk (y m d : Nat) : Bool :=
  1 ≤ y && y ≤ 9999 && 1 ≤ m && m ≤ 12 && 1 ≤ d && d ≤ daysInMonth y m

/-- Days in all years strictly before year `y` (proleptic Gregorian). -/
def daysBeforeYear (y : Nat) : Nat :=
  365 * (y - 1) + (y - 1) / 4 - (y - 1) / 100 + (y - 1) / 400

/-- Cumulative day count before month `m` in a non-leap year. -/
def cumDaysBeforeMonth : Nat → Nat
  | 1 => 0 | 2 => 31 | 3 => 59 | 4 => 90 | 5 => 120 | 6 => 151
  | 7 => 181 | 8 => 212 | 9 => 243 | 10 => 273 | 11 => 304 | 12 => 334
  | _ => 0

/-- Days in year `y` strictly before month `m`. -/
def daysBeforeMonth (y m : Nat) : Nat :=
  cumDaysBeforeMonth m + (if 2 < m && isLeap y then 1 else 0)

/-- Embedding of Python `date.toordinal()`: day 1 is January 1 of year 1. -/
def toOrdinal (d : PyDate) : Nat :=
  daysBeforeYear d.year + daysBeforeMonth d.year d.month + d.day

/-- Embedding of Python `date.weekday()`: Monday is 0 through Sunday 6;
January 1 of year 1 (ordinal 1) is a Monday. -/
def pyWeekday (d : PyDate) : Nat := (toOrdinal d + 6) % 7

/-- The next calendar day of a valid date. -/
def succDate (d : PyDate) : PyDate :=
  if d.day < daysInMonth d.year d.month then ⟨d.year, d.month, d.day + 1⟩
  else if d.month < 12 then ⟨d.year, d.month + 1, 1⟩
  else ⟨d.year + 1, 1, 1⟩

/-- The date `n` days after `d` (no range check). -/
def addDaysTotal (d : PyDate) (n : Nat) : PyDate := Nat.rec d (fun _ x => succDate x) n

/-- Embedding of Python `date + timedelta(days = n)`: the date `n` days
later, with `OverflowError` once the result passes `date.max`
(December 31, 9999), as `datetime` raises. -/
def pyAddDays (d : PyDate) (n : Nat) : Except Err PyDate :=
  let r := addDaysTotal d n
  if r.year ≤ 9999 then .ok r else .error .overflow

/-- Embedding of Python `date.replace(year = y)`: keeps month and day and
raises `ValueError` (day out of range) when the triple is not a date —
e.g. February 29 moved to a non-leap year. -/
def pyReplaceYear (d : PyDate) (y : Nat) : Except Err PyDate :=
  if dateOk y d.month d.day then .ok ⟨y, d.month, d.day⟩ else .error .dayOutOfRange

/-- Embedding of Python `date` comparison `<` (lexicographic on
year, month, day). -/
def pyDateLt (a b : PyDate) : Bool :=
  a.year < b.year ||
    (a.year = b.year && (a.month < b.month ||
      (a.month = b.month && a.day < b.day)))

/-- Embedding of `date.strftime("%d.%m.%Y")`, the repository's
`DATE_FORMAT`: two-digit day and month, four-digit year. -/
def fmtDate (d : PyDate) : String :=
  ⟨padTwo d.day ++ ('.' :: (padTwo d.month ++ ('.' :: padFour d.year)))⟩

/-- Day token of CPython `strptime`'s `%d` directive:
`3[01]|[12]\d|0[1-9]|[1-9]`, i.e. one or two digits with value 1..31. -/
def dayTok (l : List Char) : Bool :=
  !l.isEmpty && l.length ≤ 2 && l.all isDigitA &&
    1 ≤ digitsToNat l && digitsToNat l ≤ 31

/-- Month token of CPython `strptime`'s `%m` directive:
`1[0-2]|0[1-9]|[1-9]`, i.e. one or two digits with value 1..12. -/
def monthTok (l : List Char) : Bool :=
  !l.isEmpty && l.length ≤ 2 && l.all isDigitA &&
    1 ≤ digitsToNat l && digitsToNat l ≤ 12

/-- Year token of CPython `strptime`'s `%Y` directive: exactly four digits. -/
def yearTok (l : List Char) : Bool := l.length = 4 && l.all isDigitA

/-- The token phase of `strptime("%d.%m.%Y")`: exactly three dot-separated
pieces matching the `%d`, `%m` and `%Y` token languages, whose values must
form an actual calendar date, else `ValueError`. -/
def parseDMYParts : List (List Char) → Except Err PyDate
  | [a, b, c] =>
    if dayTok a && monthTok b && yearTok c then
      if dateOk (digitsToNat c) (digitsToNat b) (digitsToNat a) then
        .ok ⟨digitsToNat c, digitsToNat b, digitsToNat a⟩
      else .error .invalidFormat
    else .error .invalidFormat
  | _ => .error .invalidFormat

/-- Embedding of `datetime.strptime(s, "%d.%m.%Y")`: the two literal dots
split the string into a day, month and year token (none of which can
contain a dot). -/
def pyStrptimeDMY (s : String) : Except Err PyDate :=
  parseDMYParts (splitOnL '.' s.data)

/-- ASCII letter test (`[a-zA-Z]` in the email pattern). -/
def isAlphaA (c : Char) : Bool :=
  (65 ≤ c.toNat && c.toNat ≤ 90) || (97 ≤ c.toNat && c.toNat ≤ 122)

/-- Characters allowed in the local part of `EMAIL_PATTERN`:
`[a-zA-Z0-9._%+-]`. -/
def localCharA (c : Char) : Bool :=
  isAlphaA c || isDigitA c || c = '.' || c = '_' || c = '%' || c = '+' || c = '-'

/-- Characters allowed in the domain part of `EMAIL_PATTERN`:
`[a-zA-Z0-9.-]`. -/
def domCharA (c : Char) : Bool := isAlphaA c || isDigitA c || c = '.' || c = '-'

/-- Match of the part after `@` against `[a-zA-Z0-9.-]+\.[a-zA-Z]{2,}$`:
since the top-level segment contains no dot and runs to the end of the
string, the split must happen at the last dot. -/
def emailDomChk (rest : List Char) : Bool :=
  match rest.reverse.dropWhile (fun c => !(c = '.')) with
  | '.' :: domR => !domR.isEmpty && domR.all domCharA &&
      2 ≤ (rest.reverse.takeWhile (fun c => !(c = '.'))).length &&
      (rest.reverse.takeWhile (fun c => !(c = '.'))).all isAlphaA
  | _ => false

/-- Embedding of `re.match(EMAIL_PATTERN, s)` for
`^[a-zA-Z0-9._%+-]+@[a-zA-Z0-9.-]+\.[a-zA-Z]{2,}$`: neither character
class contains `@`, so a match forces exactly one `@` in the string. -/
def pyEmailValidate (s : String) : Bool :=
  match splitOnL '@' s.data with
  | [loc, rest] => !loc.isEmpty && loc.all localCharA && emailDomChk rest
  | _ => false

/-- Embedding of `Phone.validate` in `src/fields.py`:
`value.isdigit() and len(value) == PHONE_DIGITS_LENGTH` with
`PHONE_DIGITS_LENGTH = 10`. -/
def phoneValidate (s : String) : Bool := pyIsDigitStr s && s.data.length == 10

/-- Embedding of the `Phone` constructor: validate, else `ValueError`. -/
def pyPhone (s : String) : Except Err String :=
  if phoneValidate s then .ok s else .error .invalidFormat

/-- Embedding of the `Email` constructor: the raw value is stripped and
lowercased first, then validated; the normalized value is stored. -/
def pyEmail (s : String) : Except Err String :=
  let v := pyLower (pyStrip s)
  if pyEmailValidate v then .ok v else .error .invalidFormat

/-- Embedding of `Address.validate`: nonempty after stripping. -/
def addressValidate (s : String) : Bool := !(pyStrip s).data.isEmpty

/-- Embedding of the `Address` constructor (stores the raw value). -/
def pyAddress (s : String) : Except Err String :=
  if addressValidate s then .ok s else .error .invalidFormat

/-- Embedding of the `Birthday` constructor: `strptime` with
`DATE_FORMAT = "%d.%m.%Y"`, re-raising `ValueError` as the validation
failure; the parsed date value is stored, not the string. -/
def pyBirthday (s : String) : Except Err PyDate := pyStrptimeDMY s

/-- Embedding of `Record` in `src/record.py`: validated name plus phone
list, optional email, address and birthday. Field wrappers store plain
values, so the record holds the `.value` payloads directly. -/
structure Record where
  name : String
  phones : List String
  email : Option String
  address : Option String
  birthday : Option PyDate
deriving DecidableEq, Repr

/-- Embedding of `Record.__init__(name)`. -/
def Record.init (name : String) : Record := ⟨name, [], none, none, none⟩

/-- Embedding of `Record.add_phone`: validates and appends. -/
def Record.add_phone (r : Record) (p : String) : Except Err Record :=
  match pyPhone p with
  | .ok v => .ok { r with phones := r.phones ++ [v] }
  | .error e => .error e

/-- Embedding of `Record.add_email`: validates (with normalization) and
overwrites the single slot. -/
def Record.add_email (r : Record) (s : String) : Except Err Record :=
  match pyEmail s with
  | .ok v => .ok { r with email := some v }
  | .error e => .error e

/-- Embedding of `Record.add_address`. -/
def Record.add_address (r : Record) (s : String) : Except Err Record :=
  match pyAddress s with
  | .ok v => .ok { r with address := some v }
  | .error e => .error e

/-- Embedding of `Record.add_birthday`: parses and overwrites. -/
def Record.add_birthday (r : Record) (s : String) : Except Err Record :=
  match pyBirthday s with
  | .ok v => .ok { r with birthday := some v }
  | .error e => .error e

/-- The flat dictionary produced by `Record.to_dict` (and consumed by
`Record.from_dict`): name, phone strings, optional email/address strings,
optional birthday string in the canonical date format. -/
structure RecordDict where
  name : String
  phones : List String
  email : Option String
  address : Option String
  birthday : Option String
deriving DecidableEq, Repr

/-- Embedding of `Record.to_dict`. -/
def Record.to_dict (r : Record) : RecordDict :=
  ⟨r.name, r.phones, r.email, r.address, r.birthday.map fmtDate⟩

/-- Python truthiness filter for `data.get(key)`: `None` and the empty
string are falsy. -/
def optTruthy : Option String → Option String
  | none => none
  | some s => if s = "" then none else some s

/-- The `for phone in data.get("phones", [])` loop of `from_dict`: add
each phone in order, propagating a validation failure. -/
def addPhonesLoop : Record → List String → Except Err Record
  | r, [] => .ok r
  | r, p :: ps =>
    match r.add_phone p with
    | .ok r' => addPhonesLoop r' ps
    | .error e => .error e

/-- Embedding of `Record.from_dict`: rebuild a record through the same
validating mutators used for live input. -/
def Record.from_dict (d : RecordDict) : Except Err Record :=
  match addPhonesLoop (Record.init d.name) d.phones with
  | .error e => .error e
  | .ok r1 =>
    match (match optTruthy d.email with
           | some e => r1.add_email e
           | none => .ok r1) with
    | .error e => .error e
    | .ok r2 =>
      match (match optTruthy d.address with
             | some a => r2.add_address a
             | none => .ok r2) with
      | .error e => .error e
      | .ok r3 =>
        match optTruthy d.birthday with
        | some b => r3.add_birthday b
        | none => .ok r3

/-- One line of the birthday query's result:
`{"name": ..., "congratulation_date": ...}`. -/
structure BEntry where
  name : String
  congratulation_date : String
deriving DecidableEq, Repr

/-- The occurrence computation of `get_birthdays_in_days`: this year's
occurrence of the birthday's month/day, rolled to next year when it has
already passed relative to `today` (each `replace` can raise for a
February 29 birthday). -/
def occurrenceOf (today b : PyDate) : Except Err PyDate :=
  match pyReplaceYear b today.year with
  | .error e => .error e
  | .ok x => if pyDateLt x today then pyReplaceYear x (today.year + 1) else .ok x

/-- The weekend-shift step of `get_birthdays_in_days`: Saturday moves two
days forward, Sunday one day forward, weekdays are unshifted. -/
def congratDate (d : PyDate) : Except Err PyDate :=
  if pyWeekday d = 5 then pyAddDays d 2
  else if pyWeekday d = 6 then pyAddDays d 1
  else .ok d

/-- The loop body of `get_birthdays_in_days` for one record: skip records
without a birthday, compute the occurrence, keep the record only when the
occurrence equals the target date, and attach the shifted
congratulation date. -/
def entryFor (today target : PyDate) (r : Record) : Except Err (Option BEntry) :=
  match r.birthday with
  | none => .ok none
  | some b =>
    match occurrenceOf today b with
    | .error e => .error e
    | .ok occ =>
      if occ = target then
        match congratDate occ with
        | .error e => .error e
        | .ok cd => .ok (some ⟨r.name, fmtDate cd⟩)
      else .ok none

/-- The full loop of `get_birthdays_in_days` over the book's records in
iteration order. -/
def collectEntries (today target : PyDate) : List Record → Except Err (List BEntry)
  | [] => .ok []
  | r :: rs =>
    match entryFor today target r with
    | .error e => .error e
    | .ok none => collectEntries today target rs
    | .ok (some ent) =>
      match collectEntries today target rs with
      | .error e => .error e
      | .ok l => .ok (ent :: l)

/-- Stable insertion into a list sorted ascending by name. -/
def insertEntry (e : BEntry) : List BEntry → List BEntry
  | [] => [e]
  | x :: xs => if pyStrLe e.name x.name then e :: x :: xs else x :: insertEntry e xs

/-- Embedding of `result.sort(key = name)`: stable ascending sort by the
stored name string. -/
def sortEntries : List BEntry → List BEntry
  | [] => []
  | e :: es => insertEntry e (sortEntries es)

/-- Embedding of `AddressBook.get_birthdays_in_days(days)`; the book is
given as `self.data.values()` in insertion order and `today` (the code's
`datetime.today().date()`) is an explicit parameter. -/
def get_birthdays_in_days (book : List Record) (today : PyDate) (days : Int) :
    Except Err (List BEntry) :=
  if days < 0 then .error .invalidArgument
  else
    match pyAddDays today days.toNat with
    | .error e => .error e
    | .ok target =>
      match collectEntries today target book with
      | .error e => .error e
      | .ok l => .ok (sortEntries l)

/-- The per-record disjunction of `AddressBook.search`'s five field tests
(name, any phone, email, address, formatted birthday). -/
def recMatches (ql : String) (r : Record) : Bool :=
  pyIn ql (pyLower r.name) ||
  r.phones.any (fun p => pyIn ql p) ||
  (match r.email with | some e => pyIn ql (pyLower e) | none => false) ||
  (match r.address with | some a => pyIn ql (pyLower a) | none => false) ||
  (match r.birthday with | some b => pyIn ql (fmtDate b) | none => false)

/-- The loop of `AddressBook.search`: per record, try name, then the
phones (breaking at the first hit), then email, then address, then the
formatted birthday; append the record at the first field that matches and
go on to the next record. -/
def searchLoop (ql : String) : List Record → List Record
  | [] => []
  | r :: rs =>
    if pyIn ql (pyLower r.name) then r :: searchLoop ql rs
    else if r.phones.any (fun p => pyIn ql p) then r :: searchLoop ql rs
    else if (match r.email with | some e => pyIn ql (pyLower e) | none => false) then
      r :: searchLoop ql rs
    else if (match r.address with | some a => pyIn ql (pyLower a) | none => false) then
      r :: searchLoop ql rs
    else if (match r.birthday with | some b => pyIn ql (fmtDate b) | none => false) then
      r :: searchLoop ql rs
    else searchLoop ql rs

/-- Embedding of `AddressBook.search(query)`: the query is lowercased once
and the book is scanned in insertion order. -/
def searchBook (book : List Record) (query : String) : List Record :=
  searchLoop (pyLower query) book

/-- Embedding of `Note` in `src/note.py`: validated title and content plus
normalized tags. -/
structure Note where
  title : String
  content : String
  tags : List String
deriving DecidableEq, Repr

/-- The tag list comprehension of `Note.__init__`:
`[t.strip().lower() for t in tags if t.strip()]` — keep tags that are
nonempty after stripping, then strip and lowercase each one. -/
def noteTags (tags : List String) : List String :=
  (tags.filter (fun t => !(pyStrip t).data.isEmpty)).map (fun t => pyLower (pyStrip t))

/-- Embedding of `Note.__init__(title, content, tags)`: title and content
must be nonempty after stripping; both are stored stripped; a falsy
`tags` argument (absent or empty) yields no tags. -/
def Note.make (title content : String) (tags : Option (List String)) : Except Err Note :=
  if (pyStrip title).data.isEmpty then .error .invalidFormat
  else if (pyStrip content).data.isEmpty then .error .invalidFormat
  else .ok ⟨pyStrip title, pyStrip content,
            match tags with | none => [] | some l => noteTags l⟩

/-- The stored form of one note: `{title, content, tags}`. -/
structure NoteJson where
  title : String
  content : String
  tags : List String
deriving DecidableEq, Repr

/-- Embedding of `Note.to_dict`. -/
def Note.to_dict (n : Note) : NoteJson := ⟨n.title, n.content, n.tags⟩

/-- Embedding of `Note.from_dict`: re-run the validating constructor on
the stored fields (`data.get("tags", [])` defaults to an empty list). -/
def Note.from_dict (d : NoteJson) : Except Err Note :=
  Note.make d.title d.content (some d.tags)

/-- Insert or overwrite under a key, keeping the key's original position
when present and appending otherwise — Python `dict` assignment. -/
def setKey {α : Type} : List (String × α) → String → α → List (String × α)
  | [], k, v => [(k, v)]
  | (k', v') :: rest, k, v =>
    if k' = k then (k', v) :: rest else (k', v') :: setKey rest k v

/-- Exact-match lookup by key — Python `dict.get`. -/
def getKey {α : Type} : List (String × α) → String → Option α
  | [], _ => none
  | (k', v') :: rest, k => if k' = k then some v' else getKey rest k

/-- Remove a key — Python `del d[key]`. -/
def delKey {α : Type} : List (String × α) → String → List (String × α)
  | [], _ => []
  | (k', v') :: rest, k => if k' = k then rest else (k', v') :: delKey rest k

/-- The notebook collection: a mapping from note title to note record in
insertion order, as a Python `dict`. -/
abbrev NoteBookD := List (String × Note)

/-- Modelled from the spec: the keyed `NoteBook` class used by
`src/note_handlers.py` and `src/persistence.py` (`.data`, `add_note`,
`find`, `edit`, `delete`) is not among the source files (the `notebook.py`
present is an incompatible console prototype). `add_note(note)` inserts or
overwrites by title key with no merge semantics, as `AddressBook.add_record`
does by name. -/
def NoteBook.add_note (nb : NoteBookD) (n : Note) : NoteBookD := setKey nb n.title n

/-- Modelled from the spec: `NoteBook.find(title)` is an exact-match
lookup, case-sensitive on the key as stored. -/
def NoteBook.find (nb : NoteBookD) (t : String) : Option Note := getKey nb t

/-- Modelled from the spec: `NoteBook.delete(title)` fails with `NotFound`
if the key is absent. -/
def NoteBook.delete (nb : NoteBookD) (t : String) : Except Err NoteBookD :=
  match getKey nb t with
  | none => .error .notFound
  | some _ => .ok (delKey nb t)

/-- Modelled from the spec: the content replacement of `NoteBook.edit` —
content is replaced wholesale only when provided and non-empty. -/
def editContent (note : Note) : Option String → String
  | some s => if s = "" then note.content else s
  | none => note.content

/-- Modelled from the spec: the tag replacement of `NoteBook.edit` — tags
are replaced wholesale when the argument is present at all (including an
explicitly empty list, which clears them). -/
def editTags (note : Note) : Option (List String) → List String
  | some l => l
  | none => note.tags

/-- Modelled from the spec: `NoteBook.edit(title, new_title?, new_content?,
new_tags?)` — fails with `NotFound` if the title is absent; renaming
re-keys the collection (old key removed, new key inserted) only if
`new_title` is provided and non-empty; content is replaced wholesale if
provided and non-empty; tags are replaced wholesale if the argument is
present at all. -/
def NoteBook.edit (nb : NoteBookD) (t : String) (newTitle newContent : Option String)
    (newTags : Option (List String)) : Except Err NoteBookD :=
  match getKey nb t with
  | none => .error .notFound
  | some note =>
    match newTitle with
    | some nt =>
      if nt = "" then
        .ok (setKey nb t ⟨note.title, editContent note newContent, editTags note newTags⟩)
      else
        .ok (setKey (delKey nb t) nt ⟨nt, editContent note newContent, editTags note newTags⟩)
    | none => .ok (setKey nb t ⟨note.title, editContent note newContent, editTags note newTags⟩)

/-- Normalization of one tag word in `add_tag` (`src/note_handlers.py`):
words starting with `#` are stripped of every leading `#` and lowercased,
other words are lowercased. -/
def normTagWord (w : String) : String :=
  if startsL ['#'] w.data then pyLower ⟨lstripCharL '#' w.data⟩ else pyLower w

/-- The normalized tag batch of `add_tag`: whitespace-split the tag part
of the arguments and normalize each word. -/
def newTagsOf (tagsInput : String) : List String := (pySplitWs tagsInput).map normTagWord

/-- Insert a string into a strictly ascending list, dropping it if already
present. -/
def insSortedTag (x : String) : List String → List String
  | [] => [x]
  | y :: ys =>
    if listStrLt x.data y.data then x :: y :: ys
    else if x = y then y :: ys
    else y :: insSortedTag x ys

/-- Embedding of `sorted(list(s))` for a set `s` built from a list: the
strictly ascending enumeration of the list's distinct elements. -/
def sortedSetOf : List String → List String
  | [] => []
  | x :: xs => insSortedTag x (sortedSetOf xs)

/-- The core of `add_tag` after argument parsing (lines 37–55 of
`src/note_handlers.py`): find the note (else `NotFound`), normalize the
tag words, replace the note's tags by the sorted union
`sorted(list(set(note.tags) | set(new_tags)))`, and return the count the
handler reports — `len(new_tags)` — together with the updated notebook.
(`NoteBook.find` is modelled from the spec, see above.) -/
def addTagCore (title tagsInput : String) (nb : NoteBookD) : Except Err (Nat × NoteBookD) :=
  match NoteBook.find nb title with
  | none => .error .notFound
  | some note =>
    if (newTagsOf tagsInput).isEmpty then .error .valueError
    else
      .ok ((newTagsOf tagsInput).length,
        setKey nb title { note with tags := sortedSetOf (note.tags ++ newTagsOf tagsInput) })

/-- Embedding of the `add_tag` handler including its argument parsing:
the joined argument string is stripped, must be nonempty (`IndexError`),
must contain a comma (`ValueError`), and is split at the first comma into
a title part and a tag part, each stripped and required nonempty. -/
def add_tag (args : String) (nb : NoteBookD) : Except Err (Nat × NoteBookD) :=
  let argsStr := pyStrip args
  if argsStr.data.isEmpty then .error .indexError
  else
    match splitFirstL ',' argsStr.data with
    | none => .error .valueError
    | some (p0, p1) =>
      let title := pyStrip ⟨p0⟩
      let tagsInput := pyStrip ⟨p1⟩
      if title.data.isEmpty then .error .valueError
      else if tagsInput.data.isEmpty then .error .valueError
      else addTagCore title tagsInput nb

/-- State of one persistence file as seen by `load_data`: absent,
unparseable as JSON, or a well-formed array of entries. -/
inductive FileState (α : Type) where
  | missing
  | malformedJson
  | wellFormed (entries : List α)

/-- The record-loading loop of `load_data`: records are added one by one;
a failing entry aborts the loop inside the outer `try`, which degrades to
the records added so far plus a logged warning (the Bool). -/
def loadRecordsLoop : List RecordDict → List (String × Record) → List (String × Record) × Bool
  | [], book => (book, false)
  | d :: ds, book =>
    match Record.from_dict d with
    | .ok r => loadRecordsLoop ds (setKey book r.name r)
    | .error _ => (book, true)

/-- Embedding of the address-book half of `load_data`: a missing file
yields an empty book, malformed JSON logs a warning and yields an empty
book, and a well-formed array is loaded entry by entry under the outer
`except`. The Bool records whether a warning was printed. -/
def loadAddressBook : FileState RecordDict → List (String × Record) × Bool
  | .missing => ([], false)
  | .malformedJson => ([], true)
  | .wellFormed ds => loadRecordsLoop ds []

/-- The note-loading loop of `load_data`, mirroring `loadRecordsLoop`
(`NoteBook.add_note` is modelled from the spec). -/
def loadNotesLoop : List NoteJson → NoteBookD → NoteBookD × Bool
  | [], nb => (nb, false)
  | d :: ds, nb =>
    match Note.from_dict d with
    | .ok n => loadNotesLoop ds (NoteBook.add_note nb n)
    | .error _ => (nb, true)

/-- Embedding of the notebook half of `load_data`. -/
def loadNoteBook : FileState NoteJson → NoteBookD × Bool
  | .missing => ([], false)
  | .malformedJson => ([], true)
  | .wellFormed ds => loadNotesLoop ds []

/-- Embedding of `load_data`: both collections are loaded independently
and the function always returns normally. -/
def load_data (fsA : FileState RecordDict) (fsN : FileState NoteJson) :
    (List (String × Record) × Bool) × (NoteBookD × Bool) :=
  (loadAddressBook fsA, loadNoteBook fsN)

/-- The prefix of records that deserialize successfully, stopping at the
first failing entry. -/
def okRecordsPrefix : List RecordDict → List Record
  | [] => []
  | d :: ds =>
    match Record.from_dict d with
    | .ok r => r :: okRecordsPrefix ds
    | .error _ => []

/-- Does some entry of the stored array fail to deserialize? -/
def anyRecordBad : List RecordDict → Bool
  | [] => false
  | d :: ds =>
    match Record.from_dict d with
    | .ok _ => anyRecordBad ds
    | .error _ => true

/-- Build a book from a list of records by keyed insertion. -/
def bookOfRecords (start : List (String × Record)) (rs : List Record) : List (String × Record) :=
  rs.foldl (fun b r => setKey b r.name r) start

/-- The prefix of notes that deserialize successfully. -/
def okNotesPrefix : List NoteJson → List Note
  | [] => []
  | d :: ds =>
    match Note.from_dict d with
    | .ok n => n :: okNotesPrefix ds
    | .error _ => []

/-- Does some stored note fail to deserialize? -/
def anyNoteBad : List NoteJson → Bool
  | [] => false
  | d :: ds =>
    match Note.from_dict d with
    | .ok _ => anyNoteBad ds
    | .error _ => true

/-- Build a notebook from a list of notes by keyed insertion. -/
def nbOfNotes (start : NoteBookD) (ns : List Note) : NoteBookD :=
  ns.foldl (fun b n => NoteBook.add_note b n) start

/-- Re-join the pieces of a separator split, interleaving the separator:
left inverse of `splitOnL`. -/
def joinSep (sep : Char) : List (List Char) → List Char
  | [] => []
  | [p] => p
  | p :: ps => p ++ sep :: joinSep sep ps

/-- C9: for every string, Phone construction succeeds exactly when the
string consists of exactly 10 decimal digits (ASCII codes 48–57), and
fails with `InvalidFormat` on any string of a different length or
containing a non-digit character. -/
theorem phone_construction_iff (s : String) :
    pyPhone s =
      (if s.data.length = 10 ∧ ∀ c ∈ s.data, 48 ≤ c.toNat ∧ c.toNat ≤ 57
       then .ok s else .error .invalidFormat) := by
  by_cases h : s.data.length = 10 ∧ ∀ c ∈ s.data, 48 ≤ c.toNat ∧ c.toNat ≤ 57
  · rw [if_pos h]
    have hne : s.data ≠ [] := by
      intro hnil
      rw [hnil] at h
      simp at h
    unfold pyPhone phoneValidate pyIsDigitStr
    rw [if_pos]
    simp only [Bool.and_eq_true, Bool.not_eq_true', List.all_eq_true, beq_iff_eq]
    refine ⟨⟨?_, ?_⟩, h.1⟩
    · simp [List.isEmpty_iff, hne]
    · intro c hc
      have := h.2 c hc
      unfold isDigitA
      simp only [Bool.and_eq_true, decide_eq_true_eq]
      omega
  · rw [if_neg h]
    unfold pyPhone phoneValidate pyIsDigitStr
    rw [if_neg]
    intro hcontra
    simp only [Bool.and_eq_true, Bool.not_eq_true', List.all_eq_true, beq_iff_eq] at hcontra
    apply h
    refine ⟨hcontra.2, ?_⟩
    intro c hc
    have := hcontra.1.2 c hc
    unfold isDigitA at this
    simp only [Bool.and_eq_true, decide_eq_true_eq] at this
    omega

/-- C6 counterexample: constructing a note with the raw tag `"#Urgent "`
stores the tag `"#urgent"`, which still begins with the `#` marker — the
constructor trims and lowercases but does not strip `#`. -/
theorem note_tag_keeps_hash :
    Note.make "t" "c" (some ["#Urgent "]) = .ok ⟨"t", "c", ["#urgent"]⟩ ∧
      ("#urgent").data.head? = some '#' := ⟨by decide, by decide⟩

/-- C6 (amended): for every Note construction with a valid title and
content, every stored tag is a given tag trimmed of surrounding
whitespace and lowercased (tags that trim to the empty string are
dropped); a leading `#` marker is preserved, not stripped. -/
theorem note_tags_normalized (title content : String) (tags : List String)
    (ht : (pyStrip title).data ≠ []) (hc : (pyStrip content).data ≠ []) :
    ∃ n, Note.make title content (some tags) = .ok n ∧
      (∀ x ∈ n.tags, ∃ t ∈ tags, x = pyLower (pyStrip t)) ∧
      (∀ t ∈ tags, (pyStrip t).data ≠ [] → pyLower (pyStrip t) ∈ n.tags) := by
  refine ⟨⟨pyStrip title, pyStrip content, noteTags tags⟩, ?_, ?_, ?_⟩
  · unfold Note.make
    rw [if_neg (by simp [List.isEmpty_iff, ht]), if_neg (by simp [List.isEmpty_iff, hc])]
  · intro x hx
    unfold noteTags at hx
    rcases List.mem_map.1 hx with ⟨t, htm, rfl⟩
    exact ⟨t, (List.mem_filter.1 htm).1, rfl⟩
  · intro t htm htne
    unfold noteTags
    exact List.mem_map_of_mem _ (List.mem_filter.2 ⟨htm, by simp [List.isEmpty_iff, htne]⟩)

/-- Witness for the amended C6 theorem at a concrete construction. -/
theorem note_tags_normalized_witness :
    ∃ n, Note.make "todo" "buy milk" (some ["  Home ", "", "#Urgent "]) = .ok n ∧
      (∀ x ∈ n.tags, ∃ t ∈ ["  Home ", "", "#Urgent "], x = pyLower (pyStrip t)) ∧
      (∀ t ∈ ["  Home ", "", "#Urgent "], (pyStrip t).data ≠ [] → pyLower (pyStrip t) ∈ n.tags) :=
  note_tags_normalized "todo" "buy milk" ["  Home ", "", "#Urgent "] (by decide) (by decide)

/-- Computing `Char.ofNat` of a valid code point gives that code back. -/
theorem charOfNat_toNat (n : Nat) (h : n.isValidChar) : (Char.ofNat n).toNat = n := by
  unfold Char.ofNat
  rw [dif_pos h]
  rfl

/-- Characters are determined by their code points. -/
theorem charEq_of_toNat {a b : Char} (h : a.toNat = b.toNat) : a = b :=
  Char.ext (UInt32.toNat.inj h)

/-- Lowercasing an ASCII uppercase letter adds 32 to its code. -/
theorem asciiLower_toNat_of_upper (c : Char) (h : 65 ≤ c.toNat ∧ c.toNat ≤ 90) :
    (asciiLower c).toNat = c.toNat + 32 := by
  unfold asciiLower
  rw [if_pos h, charOfNat_toNat]
  exact Or.inl (by omega)

/-- Lowercasing leaves non-uppercase characters unchanged. -/
theorem asciiLower_eq_of_not_upper (c : Char) (h : ¬(65 ≤ c.toNat ∧ c.toNat ≤ 90)) :
    asciiLower c = c := by
  unfold asciiLower
  exact if_neg h

/-- The result of `asciiLower` is never an ASCII uppercase letter. -/
theorem asciiLower_not_upper (c : Char) :
    ¬(65 ≤ (asciiLower c).toNat ∧ (asciiLower c).toNat ≤ 90) := by
  by_cases h : 65 ≤ c.toNat ∧ c.toNat ≤ 90
  · have h2 := asciiLower_toNat_of_upper c h
    omega
  · rw [asciiLower_eq_of_not_upper c h]
    exact h

/-- Lowercasing does not change whether a character is whitespace. -/
theorem pyIsSpace_asciiLower (c : Char) : pyIsSpace (asciiLower c) = pyIsSpace c := by
  by_cases h : 65 ≤ c.toNat ∧ c.toNat ≤ 90
  · have h2 := asciiLower_toNat_of_upper c h
    have hl : pyIsSpace (asciiLower c) = false := by
      simp only [pyIsSpace, Bool.or_eq_false_iff, decide_eq_false_iff_not]
      omega
    have hr : pyIsSpace c = false := by
      simp only [pyIsSpace, Bool.or_eq_false_iff, decide_eq_false_iff_not]
      omega
    rw [hl, hr]
  · rw [asciiLower_eq_of_not_upper c h]

/-- `dropWhile` of whitespace commutes with lowercasing. -/
theorem dropWhile_map_lower (l : List Char) :
    (l.map asciiLower).dropWhile pyIsSpace = (l.dropWhile pyIsSpace).map asciiLower := by
  induction l with
  | nil => simp
  | cons c rest ih =>
    simp only [List.map_cons, List.dropWhile_cons, pyIsSpace_asciiLower]
    by_cases h : pyIsSpace c = true
    · simp [h, ih]
    · simp only [Bool.not_eq_true] at h
      simp [h]

/-- Stripping commutes with lowercasing (character lists). -/
theorem stripL_map_lower (l : List Char) :
    stripL (l.map asciiLower) = (stripL l).map asciiLower := by
  unfold stripL stripLeftL
  rw [← List.map_reverse, dropWhile_map_lower, ← List.map_reverse, dropWhile_map_lower]

/-- `str.strip` commutes with `str.lower`. -/
theorem pyStrip_pyLower (s : String) : pyStrip (pyLower s) = pyLower (pyStrip s) := by
  show String.mk (stripL (s.data.map asciiLower)) = String.mk ((stripL s.data).map asciiLower)
  rw [stripL_map_lower]

/-- `dropWhile` is the identity on lists all of whose elements fail the
predicate. -/
theorem dropWhile_eq_self {α : Type} (p : α → Bool) (l : List α)
    (h : ∀ c ∈ l, p c = false) : l.dropWhile p = l := by
  cases l with
  | nil => rfl
  | cons a rest =>
    simp [List.dropWhile_cons, h a (List.mem_cons_self a rest)]

/-- Stripping is the identity on whitespace-free lists. -/
theorem stripL_eq_self (l : List Char) (h : ∀ c ∈ l, pyIsSpace c = false) :
    stripL l = l := by
  unfold stripL stripLeftL
  rw [dropWhile_eq_self _ _ (fun c hc => h c (List.mem_reverse.1 hc)),
    List.reverse_reverse, dropWhile_eq_self _ _ h]

/-- `splitOnL` never returns an empty list of pieces. -/
theorem splitOnL_ne_nil (sep : Char) (l : List Char) : splitOnL sep l ≠ [] := by
  cases l with
  | nil => simp [splitOnL]
  | cons c rest =>
    unfold splitOnL
    by_cases h : c = sep
    · simp [h]
    · simp only [h, if_false]
      cases splitOnL sep rest <;> simp

/-- Joining the pieces of `splitOnL` recovers the original list. -/
theorem joinSep_splitOnL (sep : Char) (l : List Char) :
    joinSep sep (splitOnL sep l) = l := by
  induction l with
  | nil => rfl
  | cons c rest ih =>
    unfold splitOnL
    by_cases h : c = sep
    · rw [if_pos h]
      cases hs : splitOnL sep rest with
      | nil => exact absurd hs (splitOnL_ne_nil sep rest)
      | cons p ps =>
        rw [hs] at ih
        subst h
        show c :: joinSep c (p :: ps) = c :: rest
        rw [ih]
    · rw [if_neg h]
      cases hs : splitOnL sep rest with
      | nil => exact absurd hs (splitOnL_ne_nil sep rest)
      | cons p ps =>
        rw [hs] at ih
        cases ps with
        | nil =>
          show c :: p = c :: rest
          rw [← ih]
          rfl
        | cons q qs =>
          show (c :: p) ++ sep :: joinSep sep (q :: qs) = c :: rest
          rw [← ih]
          rfl

/-- The first element surviving `dropWhile` fails the predicate. -/
theorem dropWhile_first_false {α : Type} (p : α → Bool) (l : List α) (d : α) (tl : List α)
    (h : l.dropWhile p = d :: tl) : p d = false := by
  induction l with
  | nil => exact absurd h (by simp)
  | cons a rest ih =>
    by_cases hp : p a = true
    · rw [List.dropWhile_cons, if_pos hp] at h
      exact ih h
    · rw [List.dropWhile_cons, if_neg hp] at h
      cases h
      exact Bool.eq_false_iff.2 hp

/-- ASCII letters are not whitespace. -/
theorem isAlphaA_not_space (c : Char) (h : isAlphaA c = true) : pyIsSpace c = false := by
  simp only [isAlphaA, Bool.or_eq_true, Bool.and_eq_true, decide_eq_true_eq] at h
  simp only [pyIsSpace, Bool.or_eq_false_iff, decide_eq_false_iff_not]
  omega

/-- Local-part characters of the email pattern are not whitespace. -/
theorem localCharA_not_space (c : Char) (h : localCharA c = true) : pyIsSpace c = false := by
  simp only [localCharA, isDigitA, Bool.or_eq_true, Bool.and_eq_true,
    decide_eq_true_eq] at h
  rcases h with ((((((h | h) | h) | h) | h) | h) | h)
  · exact isAlphaA_not_space c h
  · simp only [pyIsSpace, Bool.or_eq_false_iff, decide_eq_false_iff_not]
    omega
  all_goals subst h <;> decide

/-- Domain characters of the email pattern are not whitespace. -/
theorem domCharA_not_space (c : Char) (h : domCharA c = true) : pyIsSpace c = false := by
  simp only [domCharA, isDigitA, Bool.or_eq_true, Bool.and_eq_true,
    decide_eq_true_eq] at h
  rcases h with (((h | h) | h) | h)
  · exact isAlphaA_not_space c h
  · simp only [pyIsSpace, Bool.or_eq_false_iff, decide_eq_false_iff_not]
    omega
  all_goals subst h <;> decide

/-- A string accepted by the email pattern contains no whitespace: every
character belongs to one of the pattern's classes or is the `@` / `.`
separator. -/
theorem emailValidate_no_space (v : String) (h : pyEmailValidate v = true) :
    ∀ c ∈ v.data, pyIsSpace c = false := by
  unfold pyEmailValidate at h
  cases hsp : splitOnL '@' v.data with
  | nil => rw [hsp] at h; exact Bool.noConfusion h
  | cons loc rest1 =>
    cases rest1 with
    | nil => rw [hsp] at h; exact Bool.noConfusion h
    | cons rest rest2 =>
      cases rest2 with
      | cons x xs => rw [hsp] at h; exact Bool.noConfusion h
      | nil =>
        rw [hsp] at h
        have h' : (!loc.isEmpty && loc.all localCharA && emailDomChk rest) = true := h
        simp only [Bool.and_eq_true, List.all_eq_true] at h'
        have hjoin : loc ++ '@' :: rest = v.data := by
          rw [← joinSep_splitOnL '@' v.data, hsp]
          rfl
        intro c hc
        rw [← hjoin] at hc
        rcases List.mem_append.1 hc with hcl | hcr
        · exact localCharA_not_space c (h'.1.2 c hcl)
        · rcases List.mem_cons.1 hcr with rfl | hcr2
          · decide
          · have hd := h'.2
            unfold emailDomChk at hd
            cases hdw : rest.reverse.dropWhile (fun c => !(c = '.')) with
            | nil => rw [hdw] at hd; exact Bool.noConfusion hd
            | cons d domR =>
              have hdot : d = '.' := by
                have := dropWhile_first_false _ _ _ _ hdw
                simpa using this
              subst hdot
              rw [hdw] at hd
              have hd2 : (!domR.isEmpty && domR.all domCharA &&
                  2 ≤ (rest.reverse.takeWhile (fun c => !(c = '.'))).length &&
                  (rest.reverse.takeWhile (fun c => !(c = '.'))).all isAlphaA) = true := hd
              simp only [Bool.and_eq_true, List.all_eq_true, decide_eq_true_eq] at hd2
              have hrev : c ∈ rest.reverse := List.mem_reverse.2 hcr2
              rw [← List.takeWhile_append_dropWhile
                (p := fun c => !(c = '.')) (l := rest.reverse), hdw] at hrev
              rcases List.mem_append.1 hrev with htk | hdr
              · exact isAlphaA_not_space c (hd2.2 c htk)
              · rcases List.mem_cons.1 hdr with rfl | hdr2
                · decide
                · exact domCharA_not_space c (hd2.1.1.2 c hdr2)

/-- C10: whenever Email construction succeeds, the stored value is the
raw string stripped of surrounding whitespace and lowercased; the pattern
is checked against that normalized form, so a stored email never contains
an ASCII uppercase letter and is unchanged by further stripping. -/
theorem email_value_normalized (raw v : String) (h : pyEmail raw = .ok v) :
    v = pyLower (pyStrip raw) ∧
    pyEmailValidate v = true ∧
    (∀ c ∈ v.data, ¬(65 ≤ c.toNat ∧ c.toNat ≤ 90)) ∧
    pyStrip v = v := by
  have hv : pyEmailValidate (pyLower (pyStrip raw)) = true ∧ v = pyLower (pyStrip raw) := by
    unfold pyEmail at h
    by_cases hc : pyEmailValidate (pyLower (pyStrip raw)) = true
    · rw [if_pos hc] at h
      exact ⟨hc, (Except.ok.inj h).symm⟩
    · rw [if_neg hc] at h
      exact Except.noConfusion h
  rcases hv with ⟨hval, hveq⟩
  subst hveq
  refine ⟨rfl, hval, ?_, ?_⟩
  · intro c hc
    rcases List.mem_map.1 hc with ⟨d, _, rfl⟩
    exact asciiLower_not_upper d
  · have hns := emailValidate_no_space _ hval
    show String.mk (stripL (pyLower (pyStrip raw)).data) = pyLower (pyStrip raw)
    rw [stripL_eq_self _ hns]

/-- Witness for the C10 theorem: a raw email with surrounding whitespace
and uppercase letters is stored in normalized form. -/
theorem email_value_normalized_witness :
    "ann@example.com" = pyLower (pyStrip " Ann@Example.COM ") ∧
    pyEmailValidate "ann@example.com" = true ∧
    (∀ c ∈ ("ann@example.com").data, ¬(65 ≤ c.toNat ∧ c.toNat ≤ 90)) ∧
    pyStrip "ann@example.com" = "ann@example.com" :=
  email_value_normalized " Ann@Example.COM " "ann@example.com" (by decide)

/-- A key held by no pair of the list looks up to nothing. -/
theorem getKey_eq_none {α : Type} (l : List (String × α)) (t : String)
    (h : ∀ p ∈ l, p.1 ≠ t) : getKey l t = none := by
  induction l with
  | nil => rfl
  | cons p rest ih =>
    have hp := h p (List.mem_cons_self p rest)
    simp only [getKey, hp, if_false]
    exact ih (fun q hq => h q (List.mem_cons_of_mem p hq))

/-- Looking up the key just set returns the new value. -/
theorem getKey_setKey_self {α : Type} (l : List (String × α)) (k : String) (v : α) :
    getKey (setKey l k v) k = some v := by
  induction l with
  | nil => simp [setKey, getKey]
  | cons p rest ih =>
    by_cases h : p.1 = k
    · simp [setKey, getKey, h]
    · simp [setKey, getKey, h, ih]

/-- Setting one key leaves lookups of other keys unchanged. -/
theorem getKey_setKey_ne {α : Type} (l : List (String × α)) (k k' : String) (v : α)
    (h : k' ≠ k) : getKey (setKey l k v) k' = getKey l k' := by
  have hkk : ¬(k = k') := fun hh => h hh.symm
  induction l with
  | nil => simp [setKey, getKey, hkk]
  | cons p rest ih =>
    by_cases hp : p.1 = k
    · have hp' : ¬(p.1 = k') := by rw [hp]; exact hkk
      simp [setKey, getKey, hp, hp', hkk]
    · simp [setKey, getKey, hp, ih]

/-- After deleting a key from a duplicate-free association list, looking
it up fails. -/
theorem getKey_delKey_self {α : Type} (l : List (String × α)) (t : String)
    (h : (l.map Prod.fst).Nodup) : getKey (delKey l t) t = none := by
  induction l with
  | nil => rfl
  | cons p rest ih =>
    simp only [List.map_cons, List.nodup_cons] at h
    by_cases hp : p.1 = t
    · simp only [delKey, hp, if_pos]
      apply getKey_eq_none
      intro q hq hqt
      apply h.1
      rw [← hp] at hqt
      exact List.mem_map.2 ⟨q, hq, hqt⟩
    · simp only [delKey, hp, if_false, getKey]
      exact ih h.2

/-- C5: editing an existing note with a provided, non-empty new title
re-keys the collection — the old title key is removed, the note (with its
edited content and tags) is retrievable only under the new title, and a
keyed operation on the old title now fails with NotFound. Stated for a
genuine rename (`new_title ≠ old title`) over a duplicate-free notebook,
the invariant Python's `dict` maintains. -/
theorem notebook_edit_rekeys (nb : NoteBookD) (t nt : String) (note : Note)
    (nc : Option String) (ntags : Option (List String))
    (hfind : NoteBook.find nb t = some note)
    (hnodup : (nb.map Prod.fst).Nodup)
    (hne : nt ≠ "") (hdiff : nt ≠ t) :
    ∃ nb', NoteBook.edit nb t (some nt) nc ntags = .ok nb' ∧
      NoteBook.find nb' t = none ∧
      NoteBook.find nb' nt = some ⟨nt, editContent note nc, editTags note ntags⟩ ∧
      NoteBook.delete nb' t = .error .notFound := by
  unfold NoteBook.find at hfind
  refine ⟨setKey (delKey nb t) nt ⟨nt, editContent note nc, editTags note ntags⟩,
    ?_, ?_, ?_, ?_⟩
  · unfold NoteBook.edit
    rw [hfind]
    show (if nt = "" then
        Except.ok (setKey nb t ⟨note.title, editContent note nc, editTags note ntags⟩)
      else
        Except.ok (setKey (delKey nb t) nt ⟨nt, editContent note nc, editTags note ntags⟩)) =
      Except.ok (setKey (delKey nb t) nt ⟨nt, editContent note nc, editTags note ntags⟩)
    rw [if_neg hne]
  · unfold NoteBook.find
    rw [getKey_setKey_ne _ _ _ _ (fun hh => hdiff hh.symm)]
    exact getKey_delKey_self nb t hnodup
  · unfold NoteBook.find
    exact getKey_setKey_self _ _ _
  · unfold NoteBook.delete
    rw [getKey_setKey_ne _ _ _ _ (fun hh => hdiff hh.symm),
      getKey_delKey_self nb t hnodup]

/-- Witness for the C5 theorem: renaming the only note of a one-note
notebook. -/
theorem notebook_edit_rekeys_witness :
    ∃ nb', NoteBook.edit [("a", ⟨"a", "c", ["x"]⟩)] "a" (some "b") none none = .ok nb' ∧
      NoteBook.find nb' "a" = none ∧
      NoteBook.find nb' "b" = some ⟨"b", editContent ⟨"a", "c", ["x"]⟩ none,
        editTags ⟨"a", "c", ["x"]⟩ none⟩ ∧
      NoteBook.delete nb' "a" = .error .notFound :=
  notebook_edit_rekeys [("a", ⟨"a", "c", ["x"]⟩)] "a" "b" ⟨"a", "c", ["x"]⟩ none none
    (by decide) (by decide) (by decide) (by decide)

/-- Strings with equal character lists are equal. -/
theorem stringData_inj {a b : String} (h : a.data = b.data) : a = b := by
  cases a
  cases b
  simp only at h
  rw [h]

/-- The lexicographic string order is irreflexive. -/
theorem listStrLt_irrefl (a : List Char) : listStrLt a a = false := by
  induction a with
  | nil => rfl
  | cons x xs ih => simp [listStrLt, ih]

/-- The lexicographic string order is transitive. -/
theorem listStrLt_trans {a b c : List Char} (h1 : listStrLt a b = true)
    (h2 : listStrLt b c = true) : listStrLt a c = true := by
  induction a generalizing b c with
  | nil =>
    cases b with
    | nil => exact absurd h1 (by simp [listStrLt])
    | cons y ys =>
      cases c with
      | nil => exact absurd h2 (by simp [listStrLt])
      | cons z zs => simp [listStrLt]
  | cons x xs ih =>
    cases b with
    | nil => exact absurd h1 (by simp [listStrLt])
    | cons y ys =>
      cases c with
      | nil => exact absurd h2 (by simp [listStrLt])
      | cons z zs =>
        simp only [listStrLt] at h1 h2 ⊢
        by_cases hxy : x.toNat < y.toNat
        · by_cases hyz : y.toNat < z.toNat
          · rw [if_pos (by omega)]
          · rw [if_neg hyz] at h2
            by_cases hyz2 : y.toNat = z.toNat
            · rw [if_pos (by omega)]
            · rw [if_neg hyz2] at h2
              exact absurd h2 (by simp)
        · rw [if_neg hxy] at h1
          by_cases hxy2 : x.toNat = y.toNat
          · rw [if_pos hxy2] at h1
            by_cases hyz : y.toNat < z.toNat
            · rw [if_pos (by omega)]
            · rw [if_neg hyz] at h2
              by_cases hyz2 : y.toNat = z.toNat
              · rw [if_neg (by omega), if_pos (by omega)]
                rw [if_pos hyz2] at h2
                exact ih h1 h2
              · rw [if_neg hyz2] at h2
                exact absurd h2 (by simp)
          · rw [if_neg hxy2] at h1
            exact absurd h1 (by simp)

/-- The lexicographic string order is total: two distinct lists compare
strictly in one direction or the other. -/
theorem listStrLt_flip {a b : List Char} (h1 : listStrLt a b = false) (h2 : a ≠ b) :
    listStrLt b a = true := by
  induction a generalizing b with
  | nil =>
    cases b with
    | nil => exact absurd rfl h2
    | cons y ys => exact absurd h1 (by simp [listStrLt])
  | cons x xs ih =>
    cases b with
    | nil => simp [listStrLt]
    | cons y ys =>
      simp only [listStrLt] at h1 ⊢
      by_cases hxy : x.toNat < y.toNat
      · rw [if_pos hxy] at h1
        exact absurd h1 (by simp)
      · rw [if_neg hxy] at h1
        by_cases heq : x.toNat = y.toNat
        · rw [if_pos heq] at h1
          have hx : x = y := charEq_of_toNat heq
          subst hx
          have hne : xs ≠ ys := fun hh => h2 (by rw [hh])
          rw [if_neg (by omega), if_pos rfl]
          exact ih h1 hne
        · rw [if_pos (by omega)]

/-- Membership in a sorted-set insertion. -/
theorem mem_insSortedTag (x y : String) (l : List String) :
    y ∈ insSortedTag x l ↔ y = x ∨ y ∈ l := by
  induction l with
  | nil => simp [insSortedTag]
  | cons z zs ih =>
    unfold insSortedTag
    by_cases hlt : listStrLt x.data z.data = true
    · simp [hlt]
    · rw [if_neg hlt]
      by_cases heq : x = z
      · rw [if_pos heq]
        subst heq
        simp only [List.mem_cons]
        tauto
      · rw [if_neg heq]
        simp only [List.mem_cons, ih]
        tauto

/-- Sorted-set insertion preserves strict ascending order. -/
theorem pairwise_insSortedTag (x : String) (l : List String)
    (h : l.Pairwise (fun a b => listStrLt a.data b.data = true)) :
    (insSortedTag x l).Pairwise (fun a b => listStrLt a.data b.data = true) := by
  induction l with
  | nil => simp [insSortedTag]
  | cons z zs ih =>
    rcases List.pairwise_cons.1 h with ⟨hz, hzs⟩
    unfold insSortedTag
    by_cases hlt : listStrLt x.data z.data = true
    · rw [if_pos hlt]
      refine List.pairwise_cons.2 ⟨?_, h⟩
      intro w hw
      rcases List.mem_cons.1 hw with rfl | hw2
      · exact hlt
      · exact listStrLt_trans hlt (hz w hw2)
    · rw [if_neg hlt]
      by_cases heq : x = z
      · rw [if_pos heq]
        exact h
      · rw [if_neg heq]
        refine List.pairwise_cons.2 ⟨?_, ih hzs⟩
        intro w hw
        rcases (mem_insSortedTag x w zs).1 hw with rfl | hw2
        · exact listStrLt_flip (by simpa using hlt)
            (fun hh => heq (stringData_inj hh))
        · exact hz w hw2

/-- Membership in the sorted-set closure equals membership in the input. -/
theorem mem_sortedSetOf (y : String) (l : List String) :
    y ∈ sortedSetOf l ↔ y ∈ l := by
  induction l with
  | nil => simp [sortedSetOf]
  | cons x xs ih =>
    unfold sortedSetOf
    rw [mem_insSortedTag]
    simp [ih]

/-- The sorted-set closure is strictly ascending. -/
theorem pairwise_sortedSetOf (l : List String) :
    (sortedSetOf l).Pairwise (fun a b => listStrLt a.data b.data = true) := by
  induction l with
  | nil => simp [sortedSetOf]
  | cons x xs ih => exact pairwise_insSortedTag x _ ih

/-- The sorted-set closure holds no duplicates. -/
theorem nodup_sortedSetOf (l : List String) : (sortedSetOf l).Nodup := by
  apply (pairwise_sortedSetOf l).imp
  intro a b hab hh
  subst hh
  rw [listStrLt_irrefl] at hab
  exact Bool.noConfusion hab

/-- C7 counterexample: adding the batch `#a #b` to a note that already
holds the tag `a` reports a count of 2 (the number of tags supplied),
although only one tag (`b`) was newly added — the handler returns
`len(new_tags)`, not the number of tags that were new. -/
theorem add_tag_count_counterexample :
    add_tag "t, #a #b" [("t", ⟨"t", "c", ["a"]⟩)]
        = .ok (2, [("t", ⟨"t", "c", ["a", "b"]⟩)]) ∧
      (["a", "b"].filter (fun x => decide (x ∉ (["a"] : List String)))).length = 1 ∧
      (2 : Nat) ≠ 1 :=
  ⟨by decide, by decide, by decide⟩

/-- C7 (amended): `add_tag` fails with NotFound when the title is absent;
when the note exists and the batch is nonempty, the note's tags become the
sorted set union of its previous tags and the normalized new tags (so no
duplicate tags result), and the reported count is the number of tag words
supplied in the batch (after normalization), counting also tags that were
already present. -/
theorem add_tag_semantics (nb : NoteBookD) (title tagsInput : String) :
    (NoteBook.find nb title = none → addTagCore title tagsInput nb = .error .notFound) ∧
    (∀ note, NoteBook.find nb title = some note → newTagsOf tagsInput ≠ [] →
      ∃ nb', addTagCore title tagsInput nb = .ok ((newTagsOf tagsInput).length, nb') ∧
        ∃ note', NoteBook.find nb' title = some note' ∧
          note'.title = note.title ∧ note'.content = note.content ∧
          (∀ x, x ∈ note'.tags ↔ x ∈ note.tags ∨ x ∈ newTagsOf tagsInput) ∧
          note'.tags.Nodup) := by
  constructor
  · intro hf
    unfold addTagCore
    rw [hf]
  · intro note hf hne
    have heq : addTagCore title tagsInput nb = .ok ((newTagsOf tagsInput).length,
        setKey nb title ⟨note.title, note.content,
          sortedSetOf (note.tags ++ newTagsOf tagsInput)⟩) := by
      unfold addTagCore
      rw [hf]
      show (if (newTagsOf tagsInput).isEmpty = true
            then (Except.error Err.valueError : Except Err (Nat × NoteBookD))
            else .ok ((newTagsOf tagsInput).length,
              setKey nb title ⟨note.title, note.content,
                sortedSetOf (note.tags ++ newTagsOf tagsInput)⟩)) = _
      rw [if_neg (by simp [List.isEmpty_iff, hne])]
    refine ⟨setKey nb title ⟨note.title, note.content,
        sortedSetOf (note.tags ++ newTagsOf tagsInput)⟩,
      heq, ⟨note.title, note.content, sortedSetOf (note.tags ++ newTagsOf tagsInput)⟩,
      ?_, rfl, rfl, ?_, ?_⟩
    · unfold NoteBook.find
      exact getKey_setKey_self _ _ _
    · intro x
      rw [mem_sortedSetOf, List.mem_append]
    · exact nodup_sortedSetOf _

/-- Witness for the amended C7 theorem at the counterexample's input. -/
theorem add_tag_semantics_witness :
    ∃ nb', addTagCore "t" "#a #b" [("t", ⟨"t", "c", ["a"]⟩)]
        = .ok ((newTagsOf "#a #b").length, nb') ∧
      ∃ note', NoteBook.find nb' "t" = some note' ∧
        note'.title = "t" ∧ note'.content = "c" ∧
        (∀ x, x ∈ note'.tags ↔ x ∈ (["a"] : List String) ∨ x ∈ newTagsOf "#a #b") ∧
        note'.tags.Nodup :=
  (add_tag_semantics [("t", ⟨"t", "c", ["a"]⟩)] "t" "#a #b").2
    ⟨"t", "c", ["a"]⟩ (by decide) (by decide)

/-- The search loop keeps exactly the records matched by the five-field
disjunction, in iteration order. -/
theorem searchLoop_eq_filter (ql : String) (book : List Record) :
    searchLoop ql book = book.filter (recMatches ql) := by
  induction book with
  | nil => rfl
  | cons r rs ih =>
    simp only [searchLoop, recMatches, List.filter_cons]
    by_cases h1 : pyIn ql (pyLower r.name) = true <;>
      by_cases h2 : (r.phones.any fun p => pyIn ql p) = true <;>
      by_cases h3 : (match r.email with | some e => pyIn ql (pyLower e) | none => false) = true <;>
      by_cases h4 : (match r.address with | some a => pyIn ql (pyLower a) | none => false) = true <;>
      by_cases h5 : (match r.birthday with | some b => pyIn ql (fmtDate b) | none => false) = true <;>
      simp [h1, h2, h3, h4, h5, ih, recMatches]

/-- C8: `search` lowercases the query once and scans the records in
insertion order, trying name, then any phone, then email, then address,
then the formatted birthday, appending a record at its first matching
field only — so the result is exactly the in-order filter of the book by
the five-field disjunction, and over a duplicate-free book each matching
record appears exactly once. -/
theorem search_matches_filter (book : List Record) (query : String) :
    searchBook book query = book.filter (recMatches (pyLower query)) ∧
    (book.Nodup → (searchBook book query).Nodup) := by
  refine ⟨searchLoop_eq_filter (pyLower query) book, ?_⟩
  intro hnd
  show (searchLoop (pyLower query) book).Nodup
  rw [searchLoop_eq_filter (pyLower query) book]
  exact hnd.filter _

/-- Witness for the C8 theorem on a concrete two-record book whose first
record matches on both name and email but is returned once. -/
theorem search_matches_filter_witness :
    searchBook
        [⟨"Anna", [], some "anna@x.co", none, none⟩,
         ⟨"Bob", ["0931112233"], none, none, none⟩] "ann"
      = List.filter (recMatches (pyLower "ann"))
          [⟨"Anna", [], some "anna@x.co", none, none⟩,
           ⟨"Bob", ["0931112233"], none, none, none⟩] ∧
    (searchBook
        [⟨"Anna", [], some "anna@x.co", none, none⟩,
         ⟨"Bob", ["0931112233"], none, none, none⟩] "ann").Nodup :=
  ⟨(search_matches_filter _ "ann").1,
   (search_matches_filter _ "ann").2 (by decide)⟩

/-- The address-book loading loop returns (normally, never raising) the
keyed insertions of the longest prefix of well-deserializing records,
with a warning flag exactly when some entry failed. -/
theorem loadRecordsLoop_eq (ds : List RecordDict) (book : List (String × Record)) :
    loadRecordsLoop ds book = (bookOfRecords book (okRecordsPrefix ds), anyRecordBad ds) := by
  induction ds generalizing book with
  | nil => rfl
  | cons d ds ih =>
    unfold loadRecordsLoop okRecordsPrefix anyRecordBad
    cases hfd : Record.from_dict d with
    | ok r => exact ih (setKey book r.name r)
    | error e => rfl

/-- The notebook loading loop, mirroring `loadRecordsLoop_eq`. -/
theorem loadNotesLoop_eq (ds : List NoteJson) (nb : NoteBookD) :
    loadNotesLoop ds nb = (nbOfNotes nb (okNotesPrefix ds), anyNoteBad ds) := by
  induction ds generalizing nb with
  | nil => rfl
  | cons d ds ih =>
    unfold loadNotesLoop okNotesPrefix anyNoteBad
    cases hfd : Note.from_dict d with
    | ok n => exact ih (NoteBook.add_note nb n)
    | error e => rfl

/-- C4: for every persistence-file state, loading returns normally — a
missing file yields an empty collection with no warning, malformed JSON
yields an empty collection with a logged warning, and a well-formed array
yields the keyed records of its longest deserializable prefix with a
warning exactly when an entry is bad; both the address-book and notebook
halves of `load_data` are covered, so no file state makes loading raise. -/
theorem load_data_contract :
    loadAddressBook .missing = ([], false) ∧
    loadAddressBook .malformedJson = ([], true) ∧
    (∀ ds, loadAddressBook (.wellFormed ds) =
      (bookOfRecords [] (okRecordsPrefix ds), anyRecordBad ds)) ∧
    loadNoteBook .missing = ([], false) ∧
    loadNoteBook .malformedJson = ([], true) ∧
    (∀ ds, loadNoteBook (.wellFormed ds) =
      (nbOfNotes [] (okNotesPrefix ds), anyNoteBad ds)) ∧
    (∀ fsA fsN, load_data fsA fsN = (loadAddressBook fsA, loadNoteBook fsN)) :=
  ⟨rfl, rfl, fun ds => loadRecordsLoop_eq ds [], rfl, rfl,
   fun ds => loadNotesLoop_eq ds [], fun _ _ => rfl⟩

/-- The value of a digit character. -/
theorem digitChar_toNat (n : Nat) (h : n < 10) : (digitChar n).toNat = 48 + n := by
  interval_cases n <;> decide

/-- Digit characters pass the digit test. -/
theorem isDigitA_digitChar (n : Nat) (h : n < 10) : isDigitA (digitChar n) = true := by
  interval_cases n <;> decide

/-- The digit expansion does not depend on the fuel, given enough of it. -/
theorem natToDigitsAux_fuel (f1 : Nat) : ∀ f2 n, n < f1 → n < f2 →
    natToDigitsAux f1 n = natToDigitsAux f2 n := by
  induction f1 with
  | zero => omega
  | succ f1 ih =>
    intro f2 n h1 h2
    cases f2 with
    | zero => omega
    | succ f2 =>
      simp only [natToDigitsAux]
      by_cases h10 : n < 10
      · rw [if_pos h10, if_pos h10]
      · rw [if_neg h10, if_neg h10]
        have hdiv : n / 10 < n := Nat.div_lt_self (by omega) (by omega)
        rw [ih f2 (n / 10) (by omega) (by omega)]

/-- Appending one digit multiplies the value by ten and adds the digit. -/
theorem digitsToNat_append (l : List Char) (c : Char) :
    digitsToNat (l ++ [c]) = 10 * digitsToNat l + (c.toNat - 48) := by
  unfold digitsToNat
  rw [List.foldl_append]
  rfl

/-- Reading back the digit expansion recovers the number. -/
theorem digitsToNat_natToDigitsAux (f : Nat) : ∀ n, n < f →
    digitsToNat (natToDigitsAux f n) = n := by
  induction f with
  | zero => omega
  | succ f ih =>
    intro n h
    simp only [natToDigitsAux]
    by_cases h10 : n < 10
    · rw [if_pos h10]
      show 10 * 0 + ((digitChar n).toNat - 48) = n
      rw [digitChar_toNat n h10]
      omega
    · rw [if_neg h10]
      rw [digitsToNat_append]
      have hdiv : n / 10 < n := Nat.div_lt_self (by omega) (by omega)
      rw [ih (n / 10) (by omega), digitChar_toNat (n % 10) (by omega)]
      omega

/-- Reading back the digits of `n` yields `n`. -/
theorem digitsToNat_natToDigits (n : Nat) : digitsToNat (natToDigits n) = n :=
  digitsToNat_natToDigitsAux (n + 1) n (by omega)

/-- Every character of a digit expansion is a digit. -/
theorem natToDigitsAux_all_digits (f : Nat) : ∀ n, n < f →
    ∀ c ∈ natToDigitsAux f n, isDigitA c = true := by
  induction f with
  | zero => omega
  | succ f ih =>
    intro n h c hc
    simp only [natToDigitsAux] at hc
    by_cases h10 : n < 10
    · rw [if_pos h10] at hc
      rcases List.mem_singleton.1 hc with rfl
      exact isDigitA_digitChar n h10
    · rw [if_neg h10] at hc
      have hdiv : n / 10 < n := Nat.div_lt_self (by omega) (by omega)
      rcases List.mem_append.1 hc with hc1 | hc2
      · exact ih (n / 10) (by omega) c hc1
      · rcases List.mem_singleton.1 hc2 with rfl
        exact isDigitA_digitChar (n % 10) (by omega)

/-- A digit expansion is never empty. -/
theorem natToDigitsAux_ne_nil (f : Nat) : ∀ n, n < f → natToDigitsAux f n ≠ [] := by
  induction f with
  | zero => omega
  | succ f ih =>
    intro n h
    simp only [natToDigitsAux]
    by_cases h10 : n < 10
    · rw [if_pos h10]
      simp
    · rw [if_neg h10]
      simp

/-- The digit expansion of `n < 10^k` has at most `k` digits. -/
theorem natToDigitsAux_length (f : Nat) : ∀ n k, n < f → 0 < k → n < 10 ^ k →
    (natToDigitsAux f n).length ≤ k := by
  induction f with
  | zero => omega
  | succ f ih =>
    intro n k h hk hpow
    simp only [natToDigitsAux]
    by_cases h10 : n < 10
    · rw [if_pos h10]
      simpa using hk
    · rw [if_neg h10]
      have hdiv : n / 10 < n := Nat.div_lt_self (by omega) (by omega)
      have hk2 : 2 ≤ k := by
        by_contra hcon
        have : k = 1 := by omega
        rw [this] at hpow
        simp at hpow
        omega
      have hpow2 : n / 10 < 10 ^ (k - 1) := by
        rw [Nat.div_lt_iff_lt_mul (by omega)]
        calc n < 10 ^ k := hpow
        _ = 10 ^ (k - 1) * 10 := by
            rw [← Nat.pow_succ]
            congr 1
            omega
      have := ih (n / 10) (k - 1) (by omega) (by omega) hpow2
      simp only [List.length_append, List.length_singleton]
      omega

/-- A leading zero does not change the numeric value. -/
theorem digitsToNat_cons_zero (l : List Char) : digitsToNat ('0' :: l) = digitsToNat l := rfl

/-- Leading zeros do not change the numeric value. -/
theorem digitsToNat_replicate_zero (k : Nat) (l : List Char) :
    digitsToNat (List.replicate k '0' ++ l) = digitsToNat l := by
  induction k with
  | zero => rfl
  | succ k ih =>
    rw [List.replicate_succ, List.cons_append, digitsToNat_cons_zero]
    exact ih

/-- The two-character padding reads back to its input. -/
theorem padTwo_val (n : Nat) : digitsToNat (padTwo n) = n := by
  unfold padTwo
  by_cases h : n < 10
  · rw [if_pos h, digitsToNat_cons_zero]
    exact digitsToNat_natToDigits n
  · rw [if_neg h]
    exact digitsToNat_natToDigits n

/-- The four-character padding reads back to its input. -/
theorem padFour_val (n : Nat) : digitsToNat (padFour n) = n := by
  unfold padFour
  rw [digitsToNat_replicate_zero]
  exact digitsToNat_natToDigits n

/-- The two-character padding is nonempty. -/
theorem padTwo_ne_nil (n : Nat) : padTwo n ≠ [] := by
  unfold padTwo
  by_cases h : n < 10
  · rw [if_pos h]
    simp
  · rw [if_neg h]
    exact natToDigitsAux_ne_nil (n + 1) n (by omega)

/-- The two-character padding of `n < 100` has at most two characters. -/
theorem padTwo_length (n : Nat) (h : n < 100) : (padTwo n).length ≤ 2 := by
  unfold padTwo
  by_cases h10 : n < 10
  · rw [if_pos h10]
    have hlen : (natToDigits n).length ≤ 1 :=
      natToDigitsAux_length (n + 1) n 1 (by omega) (by omega) (by simpa using h10)
    simp only [List.length_cons]
    omega
  · rw [if_neg h10]
    exact natToDigitsAux_length (n + 1) n 2 (by omega) (by omega) (by simpa using h)

/-- Every character of the two-character padding is a digit. -/
theorem padTwo_all_digits (n : Nat) : ∀ c ∈ padTwo n, isDigitA c = true := by
  unfold padTwo
  by_cases h : n < 10
  · rw [if_pos h]
    intro c hc
    rcases List.mem_cons.1 hc with rfl | hc2
    · decide
    · exact natToDigitsAux_all_digits (n + 1) n (by omega) c hc2
  · rw [if_neg h]
    exact natToDigitsAux_all_digits (n + 1) n (by omega)

/-- The four-character padding of `n < 10000` has exactly four characters. -/
theorem padFour_length (n : Nat) (h : n < 10000) : (padFour n).length = 4 := by
  unfold padFour
  have hlen : (natToDigits n).length ≤ 4 :=
    natToDigitsAux_length (n + 1) n 4 (by omega) (by omega) (by simpa using h)
  simp only [List.length_append, List.length_replicate]
  omega

/-- Every character of the four-character padding is a digit. -/
theorem padFour_all_digits (n : Nat) : ∀ c ∈ padFour n, isDigitA c = true := by
  unfold padFour
  intro c hc
  rcases List.mem_append.1 hc with hc1 | hc2
  · rcases List.eq_of_mem_replicate hc1 with rfl
    decide
  · exact natToDigitsAux_all_digits (n + 1) n (by omega) c hc2

/-- Digits are not the dot separator. -/
theorem digit_ne_dot (c : Char) (h : isDigitA c = true) : c ≠ '.' := by
  intro hc
  subst hc
  exact absurd h (by decide)

/-- Splitting a separator-free list yields that single piece. -/
theorem splitOnL_no_sep (sep : Char) (l : List Char) (h : ∀ c ∈ l, c ≠ sep) :
    splitOnL sep l = [l] := by
  induction l with
  | nil => rfl
  | cons c rest ih =>
    have hc := h c (List.mem_cons_self c rest)
    unfold splitOnL
    rw [if_neg hc, ih (fun x hx => h x (List.mem_cons_of_mem c hx))]

/-- Splitting past a separator-free front piece peels it off. -/
theorem splitOnL_append_sep (sep : Char) (A R : List Char) (h : ∀ c ∈ A, c ≠ sep) :
    splitOnL sep (A ++ sep :: R) = A :: splitOnL sep R := by
  induction A with
  | nil => simp [splitOnL]
  | cons a A' ih =>
    have ha := h a (List.mem_cons_self a A')
    show splitOnL sep (a :: (A' ++ sep :: R)) = (a :: A') :: splitOnL sep R
    conv_lhs => unfold splitOnL
    rw [if_neg ha, ih (fun x hx => h x (List.mem_cons_of_mem a hx))]

/-- Months have at most 31 days. -/
theorem daysInMonth_le (y m : Nat) : daysInMonth y m ≤ 31 := by
  unfold daysInMonth
  split
  · split <;> omega
  · split <;> omega

/-- Formatting a valid date in the canonical `DD.MM.YYYY` form and parsing
it back recovers the same calendar date — the stored-date round trip. -/
theorem parse_fmtDate (d : PyDate) (h : dateOk d.year d.month d.day = true) :
    pyStrptimeDMY (fmtDate d) = .ok d := by
  have hb := h
  simp only [dateOk, Bool.and_eq_true, decide_eq_true_eq] at hb
  obtain ⟨⟨⟨⟨⟨hy1, hy2⟩, hm1⟩, hm2⟩, hd1⟩, hd2⟩ := hb
  have hd31 : d.day ≤ 31 := le_trans hd2 (daysInMonth_le d.year d.month)
  have hsplit : splitOnL '.' (fmtDate d).data
      = [padTwo d.day, padTwo d.month, padFour d.year] := by
    show splitOnL '.' (padTwo d.day ++ '.' :: (padTwo d.month ++ '.' :: padFour d.year)) = _
    rw [splitOnL_append_sep '.' _ _ (fun c hc => digit_ne_dot c (padTwo_all_digits d.day c hc)),
      splitOnL_append_sep '.' _ _ (fun c hc => digit_ne_dot c (padTwo_all_digits d.month c hc)),
      splitOnL_no_sep '.' _ (fun c hc => digit_ne_dot c (padFour_all_digits d.year c hc))]
  have hday : dayTok (padTwo d.day) = true := by
    unfold dayTok
    rw [padTwo_val]
    simp only [Bool.and_eq_true, Bool.not_eq_true', List.all_eq_true, decide_eq_true_eq]
    refine ⟨⟨⟨⟨?_, ?_⟩, ?_⟩, ?_⟩, ?_⟩
    · simp [List.isEmpty_iff, padTwo_ne_nil]
    · exact padTwo_length d.day (by omega)
    · exact padTwo_all_digits d.day
    · exact hd1
    · exact hd31
  have hmon : monthTok (padTwo d.month) = true := by
    unfold monthTok
    rw [padTwo_val]
    simp only [Bool.and_eq_true, Bool.not_eq_true', List.all_eq_true, decide_eq_true_eq]
    refine ⟨⟨⟨⟨?_, ?_⟩, ?_⟩, ?_⟩, ?_⟩
    · simp [List.isEmpty_iff, padTwo_ne_nil]
    · exact padTwo_length d.month (by omega)
    · exact padTwo_all_digits d.month
    · exact hm1
    · exact hm2
  have hyear : yearTok (padFour d.year) = true := by
    unfold yearTok
    simp only [Bool.and_eq_true, List.all_eq_true, decide_eq_true_eq]
    exact ⟨padFour_length d.year (by omega), padFour_all_digits d.year⟩
  unfold pyStrptimeDMY
  rw [hsplit]
  simp only [parseDMYParts]
  rw [padTwo_val, padTwo_val, padFour_val, hday, hmon, hyear]
  simp only [Bool.and_self, if_true, h, if_pos]

/-- Adding a list of valid phone values appends them in order. -/
theorem addPhonesLoop_ok (ps : List String) : ∀ rec : Record,
    (∀ p ∈ ps, phoneValidate p = true) →
    addPhonesLoop rec ps = .ok { rec with phones := rec.phones ++ ps } := by
  induction ps with
  | nil =>
    intro rec _
    simp [addPhonesLoop]
  | cons p ps ih =>
    intro rec h
    have hp := h p (List.mem_cons_self p ps)
    unfold addPhonesLoop Record.add_phone pyPhone
    rw [if_pos hp]
    show addPhonesLoop { rec with phones := rec.phones ++ [p] } ps = _
    rw [ih _ (fun q hq => h q (List.mem_cons_of_mem p hq))]
    simp [List.append_assoc]

/-- A validated email value is nonempty. -/
theorem emailValidate_ne_empty (e : String) (h : pyEmailValidate e = true) : e ≠ "" := by
  intro he
  rw [he] at h
  exact absurd h (by decide)

/-- A validated address value is nonempty. -/
theorem addressValidate_ne_empty (a : String) (h : addressValidate a = true) : a ≠ "" := by
  intro ha
  rw [ha] at h
  exact absurd h (by decide)

/-- A formatted date string is nonempty. -/
theorem fmtDate_ne_empty (b : PyDate) : fmtDate b ≠ "" := by
  intro h
  have h2 : (fmtDate b).data = [] := by rw [h]
  unfold fmtDate at h2
  simp at h2

/-- C1: serializing a fully populated Contact Record with `to_dict` and
deserializing with `from_dict` yields the identical record — same name,
same phone list in order, same email, address, and a birthday denoting
the same calendar date. Hypotheses state the field invariants every
record built through the validating constructors satisfies: phones are
ten digits, the email is validated and already in normalized (stripped,
lowercased) form, the address is nonempty after stripping, and the
birthday is a real calendar date. -/
theorem contact_roundtrip (name : String) (phones : List String) (e a : String) (b : PyDate)
    (hph : ∀ p ∈ phones, phoneValidate p = true)
    (hev : pyEmailValidate e = true) (hen : e = pyLower (pyStrip e))
    (hav : addressValidate a = true)
    (hbv : dateOk b.year b.month b.day = true) :
    Record.from_dict (Record.to_dict ⟨name, phones, some e, some a, some b⟩)
      = .ok ⟨name, phones, some e, some a, some b⟩ := by
  unfold Record.to_dict Record.from_dict
  simp only [Option.map_some']
  have h1 : addPhonesLoop (Record.init name) phones = .ok ⟨name, phones, none, none, none⟩ := by
    rw [addPhonesLoop_ok phones (Record.init name) hph]
    simp [Record.init]
  rw [h1]
  show (match (match optTruthy (some e) with
        | some s => Record.add_email ⟨name, phones, none, none, none⟩ s
        | none => Except.ok ⟨name, phones, none, none, none⟩ : Except Err Record) with
      | Except.error err => Except.error err
      | Except.ok r2 => (match (match optTruthy (some a) with
          | some s => Record.add_address r2 s
          | none => Except.ok r2 : Except Err Record) with
        | Except.error err => Except.error err
        | Except.ok r3 => (match optTruthy (some (fmtDate b)) with
          | some s => Record.add_birthday r3 s
          | none => Except.ok r3))) = Except.ok ⟨name, phones, some e, some a, some b⟩
  have hne1 := emailValidate_ne_empty e hev
  have hne2 := addressValidate_ne_empty a hav
  have hne3 := fmtDate_ne_empty b
  have hemail : Record.add_email ⟨name, phones, none, none, none⟩ e
      = Except.ok ⟨name, phones, some e, none, none⟩ := by
    unfold Record.add_email pyEmail
    rw [← hen]
    simp [hev]
  have haddr : Record.add_address ⟨name, phones, some e, none, none⟩ a
      = Except.ok ⟨name, phones, some e, some a, none⟩ := by
    unfold Record.add_address pyAddress
    simp [hav]
  have hbday : Record.add_birthday ⟨name, phones, some e, some a, none⟩ (fmtDate b)
      = Except.ok ⟨name, phones, some e, some a, some b⟩ := by
    unfold Record.add_birthday pyBirthday
    rw [parse_fmtDate b hbv]
  simp only [optTruthy, if_neg hne1, if_neg hne2, if_neg hne3, hemail, haddr, hbday]

/-- Witness for the C1 round-trip theorem on a concrete fully populated
record. -/
theorem contact_roundtrip_witness :
    Record.from_dict (Record.to_dict
        ⟨"Ann", ["0931112233"], some "ann@example.com", some "Kyiv, vul. X 12",
         some ⟨2000, 1, 15⟩⟩)
      = .ok ⟨"Ann", ["0931112233"], some "ann@example.com", some "Kyiv, vul. X 12",
         some ⟨2000, 1, 15⟩⟩ :=
  contact_roundtrip "Ann" ["0931112233"] "ann@example.com" "Kyiv, vul. X 12" ⟨2000, 1, 15⟩
    (by decide) (by decide) (by decide) (by decide) (by decide)

/-- Unwrapping a successful bounded date addition. -/
theorem pyAddDays_ok (d : PyDate) (n : Nat) (x : PyDate) (h : pyAddDays d n = .ok x) :
    x = addDaysTotal d n := by
  unfold pyAddDays at h
  by_cases hr : (addDaysTotal d n).year ≤ 9999
  · rw [if_pos hr] at h
    exact (Except.ok.inj h).symm
  · rw [if_neg hr] at h
    exact Except.noConfusion h

/-- Characterization of a record contributing an entry to the birthday
query: it has a birthday whose occurrence computes successfully, equals
the target, and yields a congratulation date. -/
theorem entryFor_some (today target : PyDate) (r : Record) (e : BEntry)
    (h : entryFor today target r = .ok (some e)) :
    ∃ bd, r.birthday = some bd ∧ ∃ occ, occurrenceOf today bd = .ok occ ∧ occ = target ∧
      ∃ cd, congratDate occ = .ok cd ∧ e = ⟨r.name, fmtDate cd⟩ := by
  unfold entryFor at h
  split at h
  · exact Option.noConfusion (Except.ok.inj h)
  · rename_i bd hbd
    split at h
    · exact Except.noConfusion h
    · rename_i occ hocc
      split at h
      · rename_i ht
        split at h
        · exact Except.noConfusion h
        · rename_i cd hcd
          exact ⟨bd, hbd, occ, hocc, ht, cd, hcd,
            (Option.some.inj (Except.ok.inj h)).symm⟩
      · exact Option.noConfusion (Except.ok.inj h)

/-- Converse of `entryFor_some`: the components force the entry. -/
theorem entryFor_of (today target : PyDate) (r : Record) (bd occ cd : PyDate)
    (hbd : r.birthday = some bd) (hocc : occurrenceOf today bd = .ok occ)
    (ht : occ = target) (hcd : congratDate occ = .ok cd) :
    entryFor today target r = .ok (some ⟨r.name, fmtDate cd⟩) := by
  unfold entryFor
  rw [hbd]
  show (match occurrenceOf today bd with
      | Except.error err => Except.error err
      | Except.ok occ =>
        if occ = target then
          (match congratDate occ with
           | Except.error err => Except.error err
           | Except.ok cd => Except.ok (some (⟨r.name, fmtDate cd⟩ : BEntry)))
        else Except.ok none) = Except.ok (some (⟨r.name, fmtDate cd⟩ : BEntry))
  rw [hocc]
  show (if occ = target then
      (match congratDate occ with
       | Except.error err => Except.error err
       | Except.ok cd => Except.ok (some (⟨r.name, fmtDate cd⟩ : BEntry)))
    else Except.ok none) = Except.ok (some (⟨r.name, fmtDate cd⟩ : BEntry))
  rw [if_pos ht]
  show (match congratDate occ with
     | Except.error err => Except.error err
     | Except.ok cd => Except.ok (some (⟨r.name, fmtDate cd⟩ : BEntry)))
    = Except.ok (some (⟨r.name, fmtDate cd⟩ : BEntry))
  rw [hcd]

/-- Membership in a successful collection pass: exactly the entries
produced by some record of the book. -/
theorem mem_collectEntries (today target : PyDate) : ∀ (book : List Record) (l : List BEntry),
    collectEntries today target book = .ok l →
    ∀ e, e ∈ l ↔ ∃ r ∈ book, entryFor today target r = .ok (some e) := by
  intro book
  induction book with
  | nil =>
    intro l h e
    rcases Except.ok.inj h with rfl
    simp
  | cons r rs ih =>
    intro l h e
    unfold collectEntries at h
    cases hf : entryFor today target r with
    | error err =>
      rw [hf] at h
      exact Except.noConfusion h
    | ok o =>
      rw [hf] at h
      cases o with
      | none =>
        rw [ih l h e]
        constructor
        · rintro ⟨q, hq, hqe⟩
          exact ⟨q, List.mem_cons_of_mem r hq, hqe⟩
        · rintro ⟨q, hq, hqe⟩
          rcases List.mem_cons.1 hq with rfl | hq2
          · rw [hf] at hqe
            exact absurd (Except.ok.inj hqe) (by simp)
          · exact ⟨q, hq2, hqe⟩
      | some ent =>
        cases hrec : collectEntries today target rs with
        | error err =>
          rw [hrec] at h
          exact Except.noConfusion h
        | ok l' =>
          rw [hrec] at h
          rcases Except.ok.inj h with rfl
          rw [List.mem_cons, ih l' hrec e]
          constructor
          · rintro (rfl | ⟨q, hq, hqe⟩)
            · exact ⟨r, List.mem_cons_self r rs, hf⟩
            · exact ⟨q, List.mem_cons_of_mem r hq, hqe⟩
          · rintro ⟨q, hq, hqe⟩
            rcases List.mem_cons.1 hq with rfl | hq2
            · rw [hf] at hqe
              exact Or.inl (Option.some.inj (Except.ok.inj hqe)).symm
            · exact Or.inr ⟨q, hq2, hqe⟩

/-- Transitivity of the Python string `<=`. -/
theorem pyStrLe_trans {a b c : String} (h1 : pyStrLe a b = true) (h2 : pyStrLe b c = true) :
    pyStrLe a c = true := by
  unfold pyStrLe at h1 h2 ⊢
  simp only [Bool.or_eq_true, decide_eq_true_eq] at h1 h2 ⊢
  rcases h1 with rfl | h1
  · exact h2
  · rcases h2 with rfl | h2
    · exact Or.inr h1
    · exact Or.inr (listStrLt_trans h1 h2)

/-- Totality of the Python string `<=`. -/
theorem pyStrLe_total {a b : String} (h : pyStrLe a b = false) : pyStrLe b a = true := by
  unfold pyStrLe at h ⊢
  simp only [Bool.or_eq_false_iff, decide_eq_false_iff_not] at h
  simp only [Bool.or_eq_true, decide_eq_true_eq]
  exact Or.inr (listStrLt_flip h.2 (fun hh => h.1 (stringData_inj hh)))

/-- Membership in the sort insertion. -/
theorem mem_insertEntry (x e : BEntry) (l : List BEntry) :
    e ∈ insertEntry x l ↔ e = x ∨ e ∈ l := by
  induction l with
  | nil => simp [insertEntry]
  | cons y ys ih =>
    unfold insertEntry
    by_cases h : pyStrLe x.name y.name = true
    · simp [h]
    · rw [if_neg h]
      simp only [List.mem_cons, ih]
      tauto

/-- Membership in the sorted result equals membership in the input. -/
theorem mem_sortEntries (e : BEntry) (l : List BEntry) :
    e ∈ sortEntries l ↔ e ∈ l := by
  induction l with
  | nil => simp [sortEntries]
  | cons x xs ih =>
    unfold sortEntries
    rw [mem_insertEntry]
    simp [ih]

/-- Sort insertion preserves ascending name order. -/
theorem pairwise_insertEntry (x : BEntry) (l : List BEntry)
    (h : l.Pairwise (fun e1 e2 => pyStrLe e1.name e2.name = true)) :
    (insertEntry x l).Pairwise (fun e1 e2 => pyStrLe e1.name e2.name = true) := by
  induction l with
  | nil => simp [insertEntry]
  | cons y ys ih =>
    rcases List.pairwise_cons.1 h with ⟨hy, hys⟩
    unfold insertEntry
    by_cases hle : pyStrLe x.name y.name = true
    · rw [if_pos hle]
      refine List.pairwise_cons.2 ⟨?_, h⟩
      intro w hw
      rcases List.mem_cons.1 hw with rfl | hw2
      · exact hle
      · exact pyStrLe_trans hle (hy w hw2)
    · rw [if_neg hle]
      refine List.pairwise_cons.2 ⟨?_, ih hys⟩
      intro w hw
      rcases (mem_insertEntry x w ys).1 hw with rfl | hw2
      · exact pyStrLe_total (by simpa using hle)
      · exact hy w hw2

/-- The sorting pass returns an ascending-by-name list. -/
theorem pairwise_sortEntries (l : List BEntry) :
    (sortEntries l).Pairwise (fun e1 e2 => pyStrLe e1.name e2.name = true) := by
  induction l with
  | nil => simp [sortEntries]
  | cons x xs ih => exact pairwise_insertEntry x _ ih

/-- The weekend-shift step, unfolded: Saturday adds two days, Sunday one,
weekdays none. -/
theorem congratDate_cases (occ cd : PyDate) (h : congratDate occ = .ok cd) :
    (pyWeekday occ = 5 → cd = addDaysTotal occ 2) ∧
    (pyWeekday occ = 6 → cd = addDaysTotal occ 1) ∧
    (pyWeekday occ ≠ 5 → pyWeekday occ ≠ 6 → cd = occ) := by
  unfold congratDate at h
  by_cases h5 : pyWeekday occ = 5
  · rw [if_pos h5] at h
    have hc := pyAddDays_ok occ 2 cd h
    exact ⟨fun _ => hc, fun h6 => absurd (h5.symm.trans h6) (by decide),
      fun hn5 _ => absurd h5 hn5⟩
  · rw [if_neg h5] at h
    by_cases h6 : pyWeekday occ = 6
    · rw [if_pos h6] at h
      have hc := pyAddDays_ok occ 1 cd h
      exact ⟨fun h5' => absurd h5' h5, fun _ => hc, fun _ hn6 => absurd h6 hn6⟩
    · rw [if_neg h6] at h
      exact ⟨fun h5' => absurd h5' h5, fun h6' => absurd h6' h6,
        fun _ _ => (Except.ok.inj h).symm⟩

/-- C2 counterexample: with a February 29 birthday on file and a non-leap
current year, the query raises a date error (`day is out of range for
month` from `date.replace`) for a non-negative `days` instead of
returning a list. -/
theorem birthdays_feb29_counterexample :
    ¬((0 : Int) < 0) ∧
    get_birthdays_in_days [⟨"Bob", [], none, none, some ⟨2000, 2, 29⟩⟩] ⟨2025, 1, 1⟩ 0
      = .error .dayOutOfRange :=
  ⟨by decide, by decide⟩

/-- C2 (amended): the birthday query fails with InvalidArgument for
negative `days`; whenever it returns normally (all occurrence and target
computations succeed — a February 29 birthday meeting a non-leap year, or
a date overflow, makes it raise instead), the result holds exactly those
contacts whose rolled-forward occurrence is exactly `days` days from
today, with the shifted congratulation date, sorted ascending by name. -/
theorem birthdays_query (book : List Record) (today : PyDate) (days : Int) :
    (days < 0 → get_birthdays_in_days book today days = .error .invalidArgument) ∧
    (∀ res, get_birthdays_in_days book today days = .ok res →
      ((∀ e, e ∈ res ↔ ∃ r ∈ book, ∃ bd, r.birthday = some bd ∧
          ∃ occ, occurrenceOf today bd = .ok occ ∧
            pyAddDays today days.toNat = .ok occ ∧
            ∃ cd, congratDate occ = .ok cd ∧ e = ⟨r.name, fmtDate cd⟩) ∧
        res.Pairwise (fun e1 e2 => pyStrLe e1.name e2.name = true))) := by
  constructor
  · intro hneg
    unfold get_birthdays_in_days
    rw [if_pos hneg]
  · intro res hres
    unfold get_birthdays_in_days at hres
    by_cases hneg : days < 0
    · rw [if_pos hneg] at hres
      exact absurd hres (by simp)
    · rw [if_neg hneg] at hres
      split at hres
      · exact absurd hres (by simp)
      · rename_i target htg
        split at hres
        · exact absurd hres (by simp)
        · rename_i l hcol
          rcases Except.ok.inj hres with rfl
          constructor
          · intro e
            rw [mem_sortEntries, mem_collectEntries today target book l hcol e]
            constructor
            · rintro ⟨r, hr, hef⟩
              rcases entryFor_some today target r e hef with
                ⟨bd, hbd, occ, hocc, rfl, cd, hcd, he⟩
              exact ⟨r, hr, bd, hbd, occ, hocc, htg, cd, hcd, he⟩
            · rintro ⟨r, hr, bd, hbd, occ, hocc, htg2, cd, hcd, rfl⟩
              have hot : occ = target := by
                rw [htg] at htg2
                exact (Except.ok.inj htg2).symm
              exact ⟨r, hr, entryFor_of today target r bd occ cd hbd hocc hot hcd⟩
          · exact pairwise_sortEntries l

/-- Witness for the amended C2 theorem: the negative-days branch at
`days = -1`, and the success branch on a one-contact book whose birthday
occurrence (a Saturday) is exactly six days from today. -/
theorem birthdays_query_witness :
    get_birthdays_in_days [] ⟨2025, 10, 12⟩ (-1) = .error .invalidArgument ∧
    ((∀ e, e ∈ [(⟨"Ann", "20.10.2025"⟩ : BEntry)] ↔
        ∃ r ∈ [(⟨"Ann", [], none, none, some ⟨1990, 10, 18⟩⟩ : Record)],
          ∃ bd, r.birthday = some bd ∧
          ∃ occ, occurrenceOf ⟨2025, 10, 12⟩ bd = .ok occ ∧
            pyAddDays ⟨2025, 10, 12⟩ (6 : Int).toNat = .ok occ ∧
            ∃ cd, congratDate occ = .ok cd ∧ e = ⟨r.name, fmtDate cd⟩) ∧
      List.Pairwise (fun e1 e2 => pyStrLe e1.name e2.name = true)
        [(⟨"Ann", "20.10.2025"⟩ : BEntry)]) :=
  ⟨(birthdays_query [] ⟨2025, 10, 12⟩ (-1)).1 (by decide),
   (birthdays_query [⟨"Ann", [], none, none, some ⟨1990, 10, 18⟩⟩] ⟨2025, 10, 12⟩ 6).2
     [⟨"Ann", "20.10.2025"⟩] (by decide)⟩

/-- C3: every entry of a birthday query result reports as congratulation
date the occurrence shifted forward by two days when the occurrence falls
on a Saturday (weekday 5), by one day when it falls on a Sunday
(weekday 6), and the occurrence itself on any weekday. -/
theorem congratulation_weekend_shift (book : List Record) (today : PyDate) (days : Int)
    (res : List BEntry) (hres : get_birthdays_in_days book today days = .ok res) :
    ∀ e ∈ res, ∃ r ∈ book, ∃ bd, r.birthday = some bd ∧
      ∃ occ, occurrenceOf today bd = .ok occ ∧
        ∃ cd, congratDate occ = .ok cd ∧ e = ⟨r.name, fmtDate cd⟩ ∧
          (pyWeekday occ = 5 → cd = addDaysTotal occ 2) ∧
          (pyWeekday occ = 6 → cd = addDaysTotal occ 1) ∧
          (pyWeekday occ ≠ 5 → pyWeekday occ ≠ 6 → cd = occ) := by
  intro e he
  unfold get_birthdays_in_days at hres
  by_cases hneg : days < 0
  · rw [if_pos hneg] at hres
    exact absurd hres (by simp)
  · rw [if_neg hneg] at hres
    split at hres
    · exact absurd hres (by simp)
    · rename_i target htg
      split at hres
      · exact absurd hres (by simp)
      · rename_i l hcol
        rcases Except.ok.inj hres with rfl
        rw [mem_sortEntries, mem_collectEntries today target book l hcol e] at he
        rcases he with ⟨r, hr, hef⟩
        rcases entryFor_some today target r e hef with
          ⟨bd, hbd, occ, hocc, rfl, cd, hcd, hee⟩
        rcases congratDate_cases occ cd hcd with ⟨hc5, hc6, hcw⟩
        exact ⟨r, hr, bd, hbd, occ, hocc, cd, hcd, hee, hc5, hc6, hcw⟩

/-- Witness for the C3 theorem: the Saturday, October 18 2025 occurrence
reports Monday, October 20 2025. -/
theorem congratulation_weekend_shift_witness :
    ∃ r ∈ [(⟨"Ann", [], none, none, some ⟨1990, 10, 18⟩⟩ : Record)],
      ∃ bd, r.birthday = some bd ∧
      ∃ occ, occurrenceOf ⟨2025, 10, 12⟩ bd = .ok occ ∧
        ∃ cd, congratDate occ = .ok cd ∧
          (⟨"Ann", "20.10.2025"⟩ : BEntry) = ⟨r.name, fmtDate cd⟩ ∧
          (pyWeekday occ = 5 → cd = addDaysTotal occ 2) ∧
          (pyWeekday occ = 6 → cd = addDaysTotal occ 1) ∧
          (pyWeekday occ ≠ 5 → pyWeekday occ ≠ 6 → cd = occ) :=
  congratulation_weekend_shift [⟨"Ann", [], none, none, some ⟨1990, 10, 18⟩⟩]
    ⟨2025, 10, 12⟩ 6 [⟨"Ann", "20.10.2025"⟩] (by decide)
    ⟨"Ann", "20.10.2025"⟩ (by decide)
